import Mathlib

/-!
Verification development for the MIA (Mission Interface Adapter) UDP packet
router.  The definitions below are shallow embeddings of the C++ sources under
`src/my_website_v1/2022_cpp_dev/`: byte buffers become `List Nat` (each entry a
byte value), machine integers become `Nat` with explicit `% 2^w` where the C++
performs wrapping arithmetic, and the stateful endpoint objects become explicit
state-passing step functions.
-/

namespace MIA

/-- Big-endian read of a 16-bit integer from a byte list at index `i`
(the `ntohs` of a 2-byte field stored in network order). -/
def rd16 (b : List Nat) (i : Nat) : Nat :=
  b.getD i 0 * 256 + b.getD (i + 1) 0

/-- Big-endian read of a 32-bit integer from a byte list at index `i`
(the `ntohl` of a 4-byte field stored in network order). -/
def rd32 (b : List Nat) (i : Nat) : Nat :=
  rd16 b i * 65536 + rd16 b (i + 2)

/-- Big-endian 2-byte encoding of `v` (the `htons` of a `uint16_t`; larger
values are truncated to 16 bits exactly as the C++ conversion does). -/
def be16 (v : Nat) : List Nat :=
  [v / 256 % 256, v % 256]

/-- Big-endian 4-byte encoding of `v` (the `htonl` of a `uint32_t`; larger
values are truncated to 32 bits exactly as the C++ conversion does). -/
def be32 (v : Nat) : List Nat :=
  [v / 16777216 % 256, v / 65536 % 256, v / 256 % 256, v % 256]

/-- Modulus of `uint32_t` arithmetic. -/
def U32 : Nat := 4294967296

/-- The payload-type field `plt` of byte 0 of an ITM header
(`itm_header_common_base_t`: bits 4..6 of the first byte on the wire). -/
def itmPlt (h : List Nat) : Nat :=
  h.getD 0 0 / 16 % 8

/-- The repurposed congestion-indicator bit `ci` of byte 0 of an ITM header
(bit 7 of the first byte on the wire); `1` marks a VITM. -/
def itmCi (h : List Nat) : Nat :=
  h.getD 0 0 / 128 % 2

/-- `itm_header_common_base_t::IsVITM`. -/
def itmIsVITM (h : List Nat) : Bool :=
  itmCi h == 1

/-- `itm_header_common_base_t::GetDestinationId`: byte 1 of the ITM header. -/
def itmDst (h : List Nat) : Nat :=
  h.getD 1 0

/-- `itm_header_common_base_t::IsMissionDataPayloadType` (and the
`util::IsMissionDataPayloadType` helper): payload types 0, 1, 3. -/
def isMissionDataPlt (t : Nat) : Bool :=
  t == 0 || t == 1 || t == 3

/-- `ite_common_header_t::IsDataMessage`: the data/control bit is bit 7 of the
first ITE header byte, `1` meaning an ITE Data message. -/
def iteIsDataMsg (h : List Nat) : Bool :=
  h.getD 0 0 / 128 % 2 == 1

/-- Modelled from the spec: the three payload-size constants of `MIADefs.h`
(`FIXED_ITM_PAYLOAD_SIZE`, `MIN_VITM_PAYLOAD_SIZE`, `MAX_VITM_PAYLOAD_SIZE`),
whose header is not part of the repository.  All results below hold for every
choice of these values. -/
structure SizeDefs where
  fixedItmPayload : Nat
  minVitmPayload : Nat
  maxVitmPayload : Nat
deriving DecidableEq

/-- `VMWMessageParser::MineMPLSPacket`: mine one length-prefixed MPLS packet
from the remaining unprocessed bytes.  Returns the packet bytes and the new
remainder, or `none` on any of the failure checks (too few bytes for the
2-byte length, length below MPLS+ITM header size 9, too few bytes for the
mined length, or the fixed-ITM/VITM size-class check). -/
def mineMPLSPacket (d : SizeDefs) (rem : List Nat) : Option (List Nat × List Nat) :=
  if rem.length < 2 then none
  else
    let len := rd16 rem 0
    let rest := rem.drop 2
    if len < 9 then none
    else if rest.length < len then none
    else
      let pkt := rest.take len
      if itmIsVITM (pkt.drop 4) then
        if len < 9 + d.minVitmPayload ∨ 9 + d.maxVitmPayload < len then none
        else some (pkt, rest.drop len)
      else
        if len ≠ 9 + d.fixedItmPayload then none
        else some (pkt, rest.drop len)

/-- The packet-mining loop of `VMWMessageParser::Process`: mine `n` MPLS
packets in sequence; any single failure discards the whole batch. -/
def vmwMineLoop (d : SizeDefs) : Nat → List Nat → Option (List (List Nat))
  | 0, _ => some []
  | Nat.succ k, rem =>
    match mineMPLSPacket d rem with
    | none => none
    | some (pkt, rest) =>
      match vmwMineLoop d k rest with
      | none => none
      | some l => some (pkt :: l)

/-- `VMWMessageParser::Process`: check the 8-byte outer header is present,
check the buffer length equals the header's `message_length`, mine the 2-byte
`num_packets`, then mine that many MPLS packets.  Extraneous trailing bytes
after the last packet are only warned about and do not fail the batch. -/
def vmwProcess (d : SizeDefs) (b : List Nat) : Option (List (List Nat)) :=
  if b.length < 8 then none
  else if b.length ≠ rd32 b 4 then none
  else if b.length < 10 then none
  else vmwMineLoop d (rd16 b 8) (b.drop 10)

/-- `VMWMessageParser::Perform`: the public entry point returns the mined
packet windows on success and the empty vector on failure. -/
def vmwPerform (d : SizeDefs) (b : List Nat) : List (List Nat) :=
  (vmwProcess d b).getD []

/-- Modelled from the spec: the external configuration and constants used by
the routing code whose headers are not part of the repository
(`ConfigItems.h`, `ItmDelay.h`, `MIADefs.h`, `VMW_Messages.h`, the VMW packet
library and the drop-packet policy engine).  `delays` is the
`ItmDelay::get(source, dest)` lookup; `bypass` is the
`MISSION_DATA_BYPASS_TPN` table indexed by destination node id.  All results
below hold for every choice of these values. -/
structure Config where
  msgId : Nat
  tacSokfMsgId : Nat
  maxPerTimeslot : Nat
  defs : SizeDefs
  delays : Nat → Nat → Nat
  hplNodeId : Nat
  localNodeId : Nat
  bypass : Nat → Bool
  qosOam : Nat
  qosIteData : Nat

/-- `VMWUplinkMPLSPacket`: the payload type mined from the ITM header plus the
stored bytes (2-byte network-order length, then MPLS header, then ITM bytes).
The two `ghost` fields are specification-only annotations recording the frame
counter and route delay at enqueue time; no step function reads them. -/
structure UplinkPkt where
  payloadType : Nat
  bytes : List Nat
  ghostEnqFrame : Nat
  ghostDelay : Nat
deriving DecidableEq

/-- `VMWUplinkMessage`: a built VMW message destined to CP (`destCP = true`)
or DP.  `bytes` are the on-the-wire bytes; `ghostPackets` is a
specification-only record of the batched packets and `ghostPushedFrame` of the
frame counter when the message was pushed to the write queue. -/
structure UplinkMessage where
  destCP : Bool
  bytes : List Nat
  ghostPackets : List UplinkPkt
  ghostPushedFrame : Nat
deriving DecidableEq

/-- `BuildMessageBytes` (anonymous namespace of `VMWMessageBuilder.cc`): outer
header (message id, total length), 2-byte packet count, then each packet's
stored bytes.  The `message_length` field is the total byte count of the whole
message, written after the buffers are gathered but before they are copied. -/
def buildMessageBytes (msgId : Nat) (pkts : List UplinkPkt) : List Nat :=
  let total := 8 + 2 + (pkts.map (fun p => p.bytes.length)).sum
  be32 msgId ++ be32 total ++ be16 pkts.length ++ (pkts.map (fun p => p.bytes)).flatten

/-- Package a batch into an `UplinkMessage` (the `VMWUplinkMessage::Create`
call inside `BuildMessageBytes`), stamping the ghost fields. -/
def buildMessage (msgId : Nat) (destCP : Bool) (frame : Nat) (pkts : List UplinkPkt) :
    UplinkMessage :=
  { destCP := destCP, bytes := buildMessageBytes msgId pkts,
    ghostPackets := pkts, ghostPushedFrame := frame }

/-- `MAX_MPLS_BATCH_SIZE` from `VMWMessageBuilder.cc`. -/
def MAX_MPLS_BATCH_SIZE : Nat := 38880

/-- The state of a `VMWMessageBuilder` together with the write queue and the
toSv drop-policy decisions it consumes.  `oracle` supplies the successive
results of `to_sv_drop_policies_.apply` (modelled from the spec: the policy
engine `DropPacketPolicy.h` is not in the repository, so its boolean answers
are an input stream).  `ghostFrame` is a specification-only stamp used for the
messages pushed while this builder runs. -/
structure BState where
  pendingControl : List UplinkPkt
  pendingControlSize : Nat
  pendingData : List UplinkPkt
  pendingDataSize : Nat
  queue : List UplinkMessage
  oracle : List Bool
  ghostFrame : Nat

/-- The private `VMWMessageBuilder::add_packet(pending_packets, ...)` overload
acting on one plane's accumulator (`isData = true` for the data plane): if the
accumulator plus the packet's bytes plus the 2-byte length field would exceed
`MAX_MPLS_BATCH_SIZE`, first emit the current accumulator as a message and
reset the byte counter, then append the packet. -/
def addToPlane (cfg : Config) (isData : Bool) (pkt : UplinkPkt) (b : BState) : BState :=
  let pending := if isData then b.pendingData else b.pendingControl
  let psize := if isData then b.pendingDataSize else b.pendingControlSize
  let need := pkt.bytes.length + 2
  if psize + need > MAX_MPLS_BATCH_SIZE then
    let b1 := { b with queue := b.queue ++ [buildMessage cfg.msgId (!isData) b.ghostFrame pending] }
    if isData then
      { b1 with pendingData := [pkt], pendingDataSize := need }
    else
      { b1 with pendingControl := [pkt], pendingControlSize := need }
  else
    if isData then
      { b with pendingData := b.pendingData ++ [pkt], pendingDataSize := psize + need }
    else
      { b with pendingControl := b.pendingControl ++ [pkt], pendingControlSize := psize + need }

/-- `VMWMessageBuilder::WriteIfReady`: flush an accumulator whose packet count
has reached `threshold` (control first, then data).  Note the C++ empties the
pending vector via a move but does not reset the byte-size accumulator here;
the embedding reproduces that. -/
def writeIfReady (cfg : Config) (threshold : Nat) (b : BState) : BState :=
  let b1 :=
    if threshold ≤ b.pendingControl.length then
      { b with queue := b.queue ++ [buildMessage cfg.msgId true b.ghostFrame b.pendingControl],
               pendingControl := [] }
    else b
  if threshold ≤ b1.pendingData.length then
    { b1 with queue := b1.queue ++ [buildMessage cfg.msgId false b1.ghostFrame b1.pendingData],
              pendingData := [] }
  else b1

/-- The public `VMWMessageBuilder::add_packet`: mission-data payload types go
to the data plane without consulting the toSv policy; all other packets are
first offered to the toSv drop policy (one oracle decision consumed) and, if
not dropped, go to the control plane.  Finally `WriteIfReady` is run with the
`VMW_COMMON_MAX_PACKETS_PER_TIMESLOT` threshold. -/
def addPacket (cfg : Config) (b : BState) (pkt : UplinkPkt) : BState :=
  if isMissionDataPlt pkt.payloadType then
    writeIfReady cfg cfg.maxPerTimeslot (addToPlane cfg true pkt b)
  else
    let b0 := { b with oracle := b.oracle.tail }
    if b.oracle.headD false then b0
    else writeIfReady cfg cfg.maxPerTimeslot (addToPlane cfg false pkt b0)

/-- `VMWMessageBuilder::finalize`: flush any non-empty accumulator. -/
def finalizeB (cfg : Config) (b : BState) : BState :=
  writeIfReady cfg 1 b

/-- A fresh builder over a given write queue, oracle and ghost frame stamp
(the constructor of `VMWMessageBuilder`: both accumulators empty). -/
def bInit (queue : List UplinkMessage) (oracle : List Bool) (frame : Nat) : BState :=
  { pendingControl := [], pendingControlSize := 0,
    pendingData := [], pendingDataSize := 0,
    queue := queue, oracle := oracle, ghostFrame := frame }

/-- Sum of `(stored byte length + 2)` over a list of packets: the quantity the
builder's byte accumulator tracks for a batch. -/
def sumNeeds (l : List UplinkPkt) : Nat :=
  (l.map (fun p => p.bytes.length + 2)).sum

/-- Insertion into an ordered `std::multimap` represented as an ascending
association list: a new record with key `k` goes after every record whose key
is `≤ k` (C++ `emplace` inserts at the upper bound of the equal range, so
insertion order among equal keys is preserved). -/
def mmInsert (k : Nat) (a : α) : List (Nat × α) → List (Nat × α)
  | [] => [(k, a)]
  | (k2, b) :: t => if k2 ≤ k then (k2, b) :: mmInsert k a t else (k, a) :: (k2, b) :: t

/-- The drain loop shared by `VMWInterface::HandleWriteDelayed` and
`MDInterface::OnSOKF`: repeatedly remove the first map entry while its key is
`≤` the current frame count.  Returns the drained entries in order and the
remaining map. -/
def drainDue (c : Nat) : List (Nat × α) → List (Nat × α) × List (Nat × α)
  | [] => ([], [])
  | (k, a) :: t =>
    if k ≤ c then
      let p := drainDue c t
      ((k, a) :: p.1, p.2)
    else ([], (k, a) :: t)

/-- The state of a `VMWInterface`: the `uint32_t` K-frame counter, the
`write_delayed_` multimap of scheduled uplink MPLS packets, the `write_queue_`
of built VMW messages, and the stream of pending toSv drop decisions. -/
structure VMWSt where
  kFrameCount : Nat
  writeDelayed : List (Nat × UplinkPkt)
  writeQueue : List UplinkMessage
  oracle : List Bool

/-- The initial `VMWInterface` state (constructor: counter 0, both containers
empty), with a chosen toSv decision stream. -/
def vmwInit (oracle : List Bool) : VMWSt :=
  { kFrameCount := 0, writeDelayed := [], writeQueue := [], oracle := oracle }

/-- The 32-bit value of `MPLSHeader_t::CreateFakeIMPLS`: every field all-ones
except the 3-bit QOS field (bits 9..11), which carries the given value. -/
def mplsFakeHeaderValue (qos : Nat) : Nat :=
  3 * 1073741824 + 255 * 4194304 + 7 * 524288 + 15 * 32768 + 7 * 4096 +
    qos % 8 * 512 + 256 + 255

/-- The four network-order bytes of the fake IMPLS header. -/
def mplsFakeHeaderBytes (qos : Nat) : List Nat :=
  be32 (mplsFakeHeaderValue qos)

/-- `VMWInterface::SendUplinkITM`: choose the QOS (payload type for a fixed
ITM; OAM or the configured ITE-data QOS for a VITM), clip the last payload
byte of a fixed-size mission-data ITM, prepend the fake IMPLS header and the
2-byte packet size, and insert the packet into `write_delayed_` at key
`k_frame_count_ + delay` (32-bit addition).  The write queue is not touched. -/
def vmwSendUplinkITM (cfg : Config) (s : VMWSt) (itm : List Nat) (src dst : Nat) : VMWSt :=
  let plt := itmPlt itm
  let qos :=
    if itmIsVITM itm then
      if iteIsDataMsg (itm.drop 5) then cfg.qosIteData else cfg.qosOam
    else plt
  let useItm :=
    if !itmIsVITM itm && isMissionDataPlt plt then itm.dropLast else itm
  let bytes := be16 (4 + useItm.length) ++ mplsFakeHeaderBytes qos ++ useItm
  let d := cfg.delays src dst
  let newPkt : UplinkPkt :=
    { payloadType := plt, bytes := bytes,
      ghostEnqFrame := s.kFrameCount, ghostDelay := d }
  { s with writeDelayed := mmInsert ((s.kFrameCount + d) % U32) newPkt s.writeDelayed }

/-- `VMWInterface::SendUplinkMPLSPacket`: prepend the 2-byte packet size to
the already-wrapped MPLS packet, read the payload type from the ITM header
after the 4-byte MPLS header, and insert into `write_delayed_` at key
`k_frame_count_ + delay` (32-bit addition).  The write queue is not touched. -/
def vmwSendUplinkMPLSPacket (cfg : Config) (s : VMWSt) (mpls : List Nat) (src dst : Nat) :
    VMWSt :=
  let bytes := be16 mpls.length ++ mpls
  let plt := itmPlt (mpls.drop 4)
  let d := cfg.delays src dst
  let newPkt : UplinkPkt :=
    { payloadType := plt, bytes := bytes,
      ghostEnqFrame := s.kFrameCount, ghostDelay := d }
  { s with writeDelayed := mmInsert ((s.kFrameCount + d) % U32) newPkt s.writeDelayed }

/-- `VMWInterface::SendUplinkPassThroughMessage`: push the message bytes onto
the write queue immediately, destined for the CP. -/
def vmwSendUplinkPassThrough (s : VMWSt) (msg : List Nat) : VMWSt :=
  { s with writeQueue := s.writeQueue ++
      [{ destCP := true, bytes := msg, ghostPackets := [],
         ghostPushedFrame := s.kFrameCount }] }

/-- `VMWInterface::OnSOKF` with `HandleWriteDelayed`: increment the K-frame
counter (32-bit), drain every delayed packet whose key is `≤` the new counter
into a fresh `VMWMessageBuilder`, and finalize the builder, which pushes the
built messages onto the write queue. -/
def vmwOnSOKF (cfg : Config) (s : VMWSt) : VMWSt :=
  let c := (s.kFrameCount + 1) % U32
  let dr := drainDue c s.writeDelayed
  let b := finalizeB cfg ((dr.1.map Prod.snd).foldl (addPacket cfg) (bInit s.writeQueue s.oracle c))
  { kFrameCount := c, writeDelayed := dr.2, writeQueue := b.queue, oracle := b.oracle }

/-- The externally triggered operations of a `VMWInterface`. -/
inductive VMWEv
  | sendITM (itm : List Nat) (src dst : Nat)
  | sendMPLS (mpls : List Nat) (src dst : Nat)
  | passThrough (msg : List Nat)
  | sokf

/-- One `VMWInterface` operation. -/
def vmwStep (cfg : Config) (s : VMWSt) : VMWEv → VMWSt
  | VMWEv.sendITM itm src dst => vmwSendUplinkITM cfg s itm src dst
  | VMWEv.sendMPLS mpls src dst => vmwSendUplinkMPLSPacket cfg s mpls src dst
  | VMWEv.passThrough msg => vmwSendUplinkPassThrough s msg
  | VMWEv.sokf => vmwOnSOKF cfg s

/-- Run a sequence of `VMWInterface` operations. -/
def vmwRun (cfg : Config) (s : VMWSt) (evs : List VMWEv) : VMWSt :=
  evs.foldl (vmwStep cfg) s

/-- A downlink ITM record held in the MD endpoint's delayed map.  The `ghost`
fields are specification-only annotations of the enqueue frame and delay. -/
structure MDRec where
  bytes : List Nat
  ghostEnqFrame : Nat
  ghostDelay : Nat
deriving DecidableEq

/-- An entry of the MD endpoint's write queue, annotated with the frame at
which it was pushed (specification-only) and its enqueue data. -/
structure MDQRec where
  bytes : List Nat
  ghostPushedFrame : Nat
  ghostEnqFrame : Nat
  ghostDelay : Nat
deriving DecidableEq

/-- The state of an `MDInterface`: `uint32_t` K-frame counter, delayed-write
multimap and write queue. -/
structure MDSt where
  kFrameCount : Nat
  writeDelayed : List (Nat × MDRec)
  writeQueue : List MDQRec
deriving DecidableEq

/-- The initial `MDInterface` state. -/
def mdInit : MDSt :=
  { kFrameCount := 0, writeDelayed := [], writeQueue := [] }

/-- `MDInterface::SendDownlinkITM`: destination node from the ITM header,
source node from the configured local node id, delay from the `ItmDelay`
lookup; a packet with positive delay is inserted into `write_delayed_` at key
`k_frame_count_ + delay` (32-bit addition), a zero-delay packet is pushed onto
the write queue immediately. -/
def mdSendDownlinkITM (cfg : Config) (s : MDSt) (itm : List Nat) : MDSt :=
  let dst := itmDst itm
  let src := cfg.localNodeId
  let d := cfg.delays src dst
  if 0 < d then
    let newRec : MDRec := { bytes := itm, ghostEnqFrame := s.kFrameCount, ghostDelay := d }
    { s with writeDelayed := mmInsert ((s.kFrameCount + d) % U32) newRec s.writeDelayed }
  else
    { s with writeQueue := s.writeQueue ++
        [{ bytes := itm, ghostPushedFrame := s.kFrameCount,
           ghostEnqFrame := s.kFrameCount, ghostDelay := d }] }

/-- `MDInterface::OnSOKF`: increment the K-frame counter (32-bit) and move
every delayed packet whose key is `≤` the new counter to the end of the write
queue, in map order. -/
def mdOnSOKF (s : MDSt) : MDSt :=
  let c := (s.kFrameCount + 1) % U32
  let dr := drainDue c s.writeDelayed
  { kFrameCount := c, writeDelayed := dr.2,
    writeQueue := s.writeQueue ++ dr.1.map (fun p =>
      { bytes := p.2.bytes, ghostPushedFrame := c,
        ghostEnqFrame := p.2.ghostEnqFrame, ghostDelay := p.2.ghostDelay }) }

/-- The externally triggered operations of an `MDInterface`. -/
inductive MDEv
  | send (itm : List Nat)
  | sokf

/-- One `MDInterface` operation. -/
def mdStep (cfg : Config) (s : MDSt) : MDEv → MDSt
  | MDEv.send itm => mdSendDownlinkITM cfg s itm
  | MDEv.sokf => mdOnSOKF s

/-- Run a sequence of `MDInterface` operations. -/
def mdRun (cfg : Config) (s : MDSt) (evs : List MDEv) : MDSt :=
  evs.foldl (mdStep cfg) s

/-- `MDInterface::HandleReadData`: validate the received uplink packet (room
for the 5-byte ITM header, the fixed/VITM payload-size rule, a mission-data
payload type) and, if accepted, return the `RouteUplinkITM` call arguments:
the packet bytes, the source node (read from the `itm_header1_alt_t`
`sourceNode` field, byte 4 of the header) and the destination node. -/
def mdHandleReadData (cfg : Config) (itm : List Nat) : Option (List Nat × Nat × Nat) :=
  if itm.length < 5 then none
  else
    let payloadSize := itm.length - 5
    if itmIsVITM itm then
      if payloadSize < cfg.defs.minVitmPayload ∨ cfg.defs.maxVitmPayload < payloadSize then none
      else if !isMissionDataPlt (itmPlt itm) then none
      else some (itm, itm.getD 4 0, itmDst itm)
    else
      if payloadSize ≠ cfg.defs.fixedItmPayload then none
      else if !isMissionDataPlt (itmPlt itm) then none
      else some (itm, itm.getD 4 0, itmDst itm)

/-- Where `DataRouter::RouteDownlinkMPLSPacket` delivers a packet. -/
inductive DownlinkDest
  | toMD (itm : List Nat)
  | toTPN (mpls : List Nat)
  | dropped
deriving DecidableEq

/-- `DataRouter::RouteDownlinkMPLSPacket`: if the ITM destination node is in
the bypass-TPN set and the payload type is mission data, send the ITM (MPLS
header stripped) to the MD endpoint; otherwise consult the toSim drop policy
(one oracle decision consumed) and, if not dropped, send the intact MPLS
packet to the TPN endpoint.  Returns the destination and remaining oracle. -/
def routeDownlinkMPLSPacket (cfg : Config) (oracle : List Bool) (mpls : List Nat) :
    DownlinkDest × List Bool :=
  let itm := mpls.drop 4
  if cfg.bypass (itmDst itm) && isMissionDataPlt (itmPlt itm) then
    (DownlinkDest.toMD itm, oracle)
  else if oracle.headD false then (DownlinkDest.dropped, oracle.tail)
  else (DownlinkDest.toTPN mpls, oracle.tail)

/-- The observable effects of one `VMWInterface::HandleReadData` call: the
statistic increments, the sub-packets handed to `RouteDownlinkMPLSPacket` in
order, and the optional whole-batch pass-through forward. -/
structure DownlinkEffects where
  discardedInc : Nat
  convertedInc : Nat
  routed : List (List Nat)
  passThroughMsg : Option (List Nat)
deriving DecidableEq

/-- `VMWInterface::HandleReadData`: parse the received batch; on an empty
parse result increment `TotalInvalidMplsPacketsDiscarded` and stop; otherwise
walk the sub-packets, flagging those destined to the HPL node and routing all
others, then forward the whole batch as pass-through if the flag was set, and
increment `TotalMplsPacketsConverted`. -/
def vmwHandleReadData (cfg : Config) (bytes : List Nat) : DownlinkEffects :=
  let bufs := vmwPerform cfg.defs bytes
  if bufs.isEmpty then
    { discardedInc := 1, convertedInc := 0, routed := [], passThroughMsg := none }
  else
    let r := bufs.foldl
      (fun (acc : Bool × List (List Nat)) buf =>
        if itmDst (buf.drop 4) == cfg.hplNodeId then (true, acc.2)
        else (acc.1, acc.2 ++ [buf]))
      (false, [])
    { discardedInc := 0, convertedInc := 1, routed := r.2,
      passThroughMsg := if r.1 then some bytes else none }

/-- The state of the `SOKFInterface`: whether the socket was fatally closed,
the synchronizing flag, the previous K-frame offset, the `TotalSokfMissed`
statistic, and the number of timing notifications delivered through the
registered callback (each of which makes TPN, VMW and MD advance their frame
counters by one). -/
structure SokfSt where
  closed : Bool
  synchronizing : Bool
  prevKframeOffset : Nat
  totalSokfMissed : Nat
  framesDelivered : Nat
deriving DecidableEq

/-- The initial `SOKFInterface` state (constructor: synchronizing, previous
offset 0). -/
def sokfInit : SokfSt :=
  { closed := false, synchronizing := true, prevKframeOffset := 0,
    totalSokfMissed := 0, framesDelivered := 0 }

/-- The elapsed-frames computation of `SOKFInterface::HandleReadData`, with
`NUM_K_FRAME_OFFSETS = 10`. -/
def sokfElapsed (prev offset : Nat) : Nat :=
  if prev < offset then offset - prev else 10 - prev + offset

/-- `SOKFInterface::HandleReadData` on a 12-byte datagram already split into
its three 32-bit fields: validate the message id, length, and offset (fatal
close on violation), deliver the timing callback, then either synchronize or
count missed K-frames and update the previous offset. -/
def sokfHandle (cfg : Config) (s : SokfSt) (msgId msgLen offset : Nat) : SokfSt :=
  if s.closed then s
  else if msgId ≠ cfg.tacSokfMsgId then { s with closed := true }
  else if msgLen ≠ 12 then { s with closed := true }
  else if 9 < offset then { s with closed := true }
  else
    let s1 := { s with framesDelivered := s.framesDelivered + 1 }
    if s1.synchronizing then
      { s1 with prevKframeOffset := offset, synchronizing := false }
    else
      let e := sokfElapsed s1.prevKframeOffset offset
      { s1 with totalSokfMissed := s1.totalSokfMissed + (if 1 < e then e - 1 else 0),
                prevKframeOffset := offset }

/-- Spec-side transcription of the parser's fixed-ITM / VITM size-class check
on a mined sub-packet length, used to state the failure-condition claim. -/
def sizeClassBad (d : SizeDefs) (len : Nat) (pkt : List Nat) : Bool :=
  if itmIsVITM (pkt.drop 4) then
    decide (len < 9 + d.minVitmPayload) || decide (9 + d.maxVitmPayload < len)
  else
    decide (len ≠ 9 + d.fixedItmPayload)

/-- Spec-side transcription of the claimed per-sub-packet failure conditions
over `k` sub-packets: fewer than 2 bytes remain for a sub-packet length, a
mined length below 9, fewer bytes remaining than the mined length, or a
size-class failure; evaluated left to right along the claimed offsets. -/
def claimSubFail (d : SizeDefs) : Nat → List Nat → Bool
  | 0, _ => false
  | Nat.succ k, rem =>
    decide (rem.length < 2) ||
      (decide (rd16 rem 0 < 9) ||
       decide (rem.length < 2 + rd16 rem 0) ||
       sizeClassBad d (rd16 rem 0) ((rem.drop 2).take (rd16 rem 0)) ||
       claimSubFail d k (rem.drop (2 + rd16 rem 0)))

/-- Spec-side transcription of the claimed failure conditions for a whole VMW
batch: fewer than 8 bytes for the outer header, buffer length differing from
the header's `message_length`, fewer than 2 bytes remaining for `num_packets`,
or some sub-packet condition of `claimSubFail`. -/
def claimEmptyCond (d : SizeDefs) (b : List Nat) : Bool :=
  decide (b.length < 8) || decide (b.length ≠ rd32 b 4) || decide (b.length < 10) ||
    claimSubFail d (rd16 b 8) (b.drop 10)

/-- A sub-packet length `len` together with its bytes `data` passes the
parser's size-class checks: for a VITM header, `len` lies in the MPLS+ITM+VITM
payload bounds; for a fixed ITM header, `len` is exactly MPLS+ITM+fixed
payload. -/
def sizeClassOk (d : SizeDefs) (len : Nat) (data : List Nat) : Bool :=
  if itmIsVITM (data.drop 4) then
    decide (9 + d.minVitmPayload ≤ len) && decide (len ≤ 9 + d.maxVitmPayload)
  else
    decide (len = 9 + d.fixedItmPayload)

/-- A well-formed stored uplink packet as hypothesised by the round-trip
claim: a 2-byte network-order length `L = length - 2` followed by exactly `L`
bytes, with `L` a 16-bit value passing the size-class checks. -/
def pktWF (d : SizeDefs) (p : UplinkPkt) : Bool :=
  decide (2 ≤ p.bytes.length) &&
  decide (p.bytes.take 2 = be16 (p.bytes.length - 2)) &&
  decide (p.bytes.length - 2 < 65536) &&
  sizeClassOk d (p.bytes.length - 2) (p.bytes.drop 2)

/-- The acceptance predicate of `MDInterface::HandleReadData`: room for the
5-byte ITM header, the fixed/VITM payload-size rule, and a mission-data
payload type. -/
def mdAccepts (cfg : Config) (itm : List Nat) : Bool :=
  decide (5 ≤ itm.length) &&
  (if itmIsVITM itm then
     decide (cfg.defs.minVitmPayload ≤ itm.length - 5) &&
       decide (itm.length - 5 ≤ cfg.defs.maxVitmPayload)
   else
     decide (itm.length - 5 = cfg.defs.fixedItmPayload)) &&
  isMissionDataPlt (itmPlt itm)

/-- A packet whose recorded enqueue frame plus recorded delay is at most `f`. -/
def GoodPkt (f : Nat) (p : UplinkPkt) : Prop :=
  p.ghostEnqFrame + p.ghostDelay ≤ f

/-- A message placed on the write queue no earlier than every contained
packet's enqueue frame plus its delay. -/
def GoodMsg (m : UplinkMessage) : Prop :=
  ∀ p ∈ m.ghostPackets, p.ghostEnqFrame + p.ghostDelay ≤ m.ghostPushedFrame

/-- Builder-state invariant for the delay-respect claim: everything pending is
due no later than the builder's frame stamp, and every already-queued message
respects the delays of its packets. -/
def GoodB (b : BState) : Prop :=
  (∀ p ∈ b.pendingControl, GoodPkt b.ghostFrame p) ∧
  (∀ p ∈ b.pendingData, GoodPkt b.ghostFrame p) ∧
  (∀ m ∈ b.queue, GoodMsg m)

/-- VMW-endpoint invariant for the delay-respect claim: every delayed record's
key is its enqueue frame plus its delay, enqueue frames never exceed the
current counter, and queued messages respect their packets' delays. -/
def VInv (s : VMWSt) : Prop :=
  (∀ x ∈ s.writeDelayed, x.1 = x.2.ghostEnqFrame + x.2.ghostDelay ∧
     x.2.ghostEnqFrame ≤ s.kFrameCount) ∧
  (∀ m ∈ s.writeQueue, GoodMsg m)

/-- MD-endpoint invariant for the delay-respect claim. -/
def MInv (s : MDSt) : Prop :=
  (∀ x ∈ s.writeDelayed, x.1 = x.2.ghostEnqFrame + x.2.ghostDelay ∧
     x.2.ghostEnqFrame ≤ s.kFrameCount) ∧
  (∀ r ∈ s.writeQueue, r.ghostEnqFrame + r.ghostDelay ≤ r.ghostPushedFrame)

/-- Builder-state invariant for the batch-size claim: each plane's byte
accumulator dominates the `(length + 2)` sum of its pending packets and never
exceeds `MAX_MPLS_BATCH_SIZE`, and every queued message's batch is within the
bound. -/
def SInv (b : BState) : Prop :=
  sumNeeds b.pendingControl ≤ b.pendingControlSize ∧
  b.pendingControlSize ≤ MAX_MPLS_BATCH_SIZE ∧
  sumNeeds b.pendingData ≤ b.pendingDataSize ∧
  b.pendingDataSize ≤ MAX_MPLS_BATCH_SIZE ∧
  (∀ m ∈ b.queue, sumNeeds m.ghostPackets ≤ MAX_MPLS_BATCH_SIZE)

/-- A message whose batched packets all belong to its plane: mission-data
payload types exactly on DP messages. -/
def PureMsg (m : UplinkMessage) : Prop :=
  ∀ p ∈ m.ghostPackets, isMissionDataPlt p.payloadType = !m.destCP

/-- Builder-state invariant for the plane-purity claim. -/
def PureB (b : BState) : Prop :=
  (∀ p ∈ b.pendingControl, isMissionDataPlt p.payloadType = false) ∧
  (∀ p ∈ b.pendingData, isMissionDataPlt p.payloadType = true) ∧
  (∀ m ∈ b.queue, PureMsg m)

/-- Concrete size constants for witnesses: a 43-byte fixed ITM payload (a
48-byte ITM as in the source comments) and VITM payload bounds 10..4000. -/
def sdA : SizeDefs :=
  { fixedItmPayload := 43, minVitmPayload := 10, maxVitmPayload := 4000 }

/-- A concrete configuration used by witnesses and counterexamples. -/
def cfgA : Config :=
  { msgId := 16909060, tacSokfMsgId := 77, maxPerTimeslot := 720, defs := sdA,
    delays := fun _ _ => 2, hplNodeId := 30, localNodeId := 5,
    bypass := fun d => d == 9, qosOam := 6, qosIteData := 2 }

/-- A variant of `cfgA` whose route-delay lookup always returns 0. -/
def cfgB : Config :=
  { cfgA with delays := fun _ _ => 0 }

/-- A concrete fixed-size mission-data ITM packet (payload type 1, destination
node 2, source-node byte 7, 43 payload bytes). -/
def itmW : List Nat :=
  16 :: 2 :: 0 :: 0 :: 7 :: List.replicate 43 0

/-- A stored uplink packet whose bytes are one byte too long for a VMW batch:
38879 stored bytes give `38879 + 2 = 38881 > MAX_MPLS_BATCH_SIZE`. -/
def bigPkt : UplinkPkt :=
  { payloadType := 0, bytes := List.replicate 38879 0, ghostEnqFrame := 0, ghostDelay := 0 }

/-- A valid VMW message declaring zero sub-packets: 8-byte header with
`message_length = 10`, then `num_packets = 0`.  Ten bytes in total. -/
def bZero : List Nat :=
  [0, 0, 0, 0, 0, 0, 0, 10, 0, 0]

/-- A well-formed stored uplink packet under `sdA`: 2-byte length 52, fake
IMPLS header, then the 48-byte fixed mission-data ITM `itmW`. -/
def pkt9 : UplinkPkt :=
  { payloadType := 1, bytes := be16 52 ++ mplsFakeHeaderBytes 1 ++ itmW,
    ghostEnqFrame := 0, ghostDelay := 0 }

/-- A concrete valid VMW batch: the bytes built from the single packet
`pkt9`. -/
def msgW : List Nat :=
  buildMessageBytes cfgA.msgId [pkt9]

/-- A concrete non-mission-data stored uplink packet (payload type 2). -/
def pktC : UplinkPkt :=
  { payloadType := 2, bytes := be16 52 ++ mplsFakeHeaderBytes 2 ++ itmW,
    ghostEnqFrame := 0, ghostDelay := 0 }

/-- A concrete synchronized SOKF endpoint state with previous offset 4. -/
def s7 : SokfSt :=
  { closed := false, synchronizing := false, prevKframeOffset := 4,
    totalSokfMissed := 0, framesDelivered := 2 }

/-- Membership after a multimap insertion comes from the new record or from
the old map. -/
theorem mem_mmInsert {α : Type _} (k : Nat) (a : α) (l : List (Nat × α)) (x : Nat × α)
    (hx : x ∈ mmInsert k a l) : x = (k, a) ∨ x ∈ l := by
  induction l with
  | nil => simpa [mmInsert] using hx
  | cons hd tl ih =>
    obtain ⟨k2, b⟩ := hd
    by_cases h : k2 ≤ k
    · simp only [mmInsert, if_pos h, List.mem_cons] at hx
      rcases hx with h1 | h2
      · exact Or.inr (by simp [h1])
      · rcases ih h2 with h3 | h4
        · exact Or.inl h3
        · exact Or.inr (List.mem_cons_of_mem _ h4)
    · simp only [mmInsert, if_neg h, List.mem_cons] at hx
      rcases hx with h1 | h2 | h3
      · exact Or.inl h1
      · exact Or.inr (by simp [h2])
      · exact Or.inr (List.mem_cons_of_mem _ h3)

/-- The inserted record is a member of the multimap after insertion. -/
theorem self_mem_mmInsert {α : Type _} (k : Nat) (a : α) (l : List (Nat × α)) :
    (k, a) ∈ mmInsert k a l := by
  induction l with
  | nil => simp [mmInsert]
  | cons hd tl ih =>
    obtain ⟨k2, b⟩ := hd
    by_cases h : k2 ≤ k
    · simp only [mmInsert, if_pos h, List.mem_cons]
      exact Or.inr ih
    · simp [mmInsert, if_neg h]

/-- Every drained record was in the map and is due at the drain frame. -/
theorem drainDue_mem_fst {α : Type _} (c : Nat) (l : List (Nat × α)) (x : Nat × α)
    (hx : x ∈ (drainDue c l).1) : x ∈ l ∧ x.1 ≤ c := by
  induction l with
  | nil => simp [drainDue] at hx
  | cons hd tl ih =>
    obtain ⟨k, a⟩ := hd
    by_cases h : k ≤ c
    · simp only [drainDue, if_pos h, List.mem_cons] at hx
      rcases hx with h1 | h2
      · subst h1
        exact ⟨List.mem_cons_self _ _, h⟩
      · obtain ⟨h3, h4⟩ := ih h2
        exact ⟨List.mem_cons_of_mem _ h3, h4⟩
    · simp [drainDue, if_neg h] at hx

/-- Every record remaining after a drain was in the map. -/
theorem drainDue_mem_snd {α : Type _} (c : Nat) (l : List (Nat × α)) (x : Nat × α)
    (hx : x ∈ (drainDue c l).2) : x ∈ l := by
  induction l with
  | nil => simp [drainDue] at hx
  | cons hd tl ih =>
    obtain ⟨k, a⟩ := hd
    by_cases h : k ≤ c
    · simp only [drainDue, if_pos h] at hx
      exact List.mem_cons_of_mem _ (ih hx)
    · simpa [drainDue, if_neg h] using hx

/-- `addToPlane` keeps the builder's ghost frame stamp. -/
theorem addToPlane_ghostFrame (cfg : Config) (isData : Bool) (pkt : UplinkPkt) (b : BState) :
    (addToPlane cfg isData pkt b).ghostFrame = b.ghostFrame := by
  cases isData <;> by_cases h : b.pendingControlSize + (pkt.bytes.length + 2) > MAX_MPLS_BATCH_SIZE <;>
    by_cases h2 : b.pendingDataSize + (pkt.bytes.length + 2) > MAX_MPLS_BATCH_SIZE <;>
    simp [addToPlane, h, h2]

/-- `addToPlane` keeps the drop-policy oracle. -/
theorem addToPlane_oracle (cfg : Config) (isData : Bool) (pkt : UplinkPkt) (b : BState) :
    (addToPlane cfg isData pkt b).oracle = b.oracle := by
  cases isData <;> by_cases h : b.pendingControlSize + (pkt.bytes.length + 2) > MAX_MPLS_BATCH_SIZE <;>
    by_cases h2 : b.pendingDataSize + (pkt.bytes.length + 2) > MAX_MPLS_BATCH_SIZE <;>
    simp [addToPlane, h, h2]

/-- `writeIfReady` keeps the builder's ghost frame stamp. -/
theorem writeIfReady_ghostFrame (cfg : Config) (t : Nat) (b : BState) :
    (writeIfReady cfg t b).ghostFrame = b.ghostFrame := by
  by_cases h : t ≤ b.pendingControl.length <;>
    by_cases h2 : t ≤ b.pendingData.length <;>
    simp [writeIfReady, h, h2]

/-- `writeIfReady` keeps the drop-policy oracle. -/
theorem writeIfReady_oracle (cfg : Config) (t : Nat) (b : BState) :
    (writeIfReady cfg t b).oracle = b.oracle := by
  by_cases h : t ≤ b.pendingControl.length <;>
    by_cases h2 : t ≤ b.pendingData.length <;>
    simp [writeIfReady, h, h2]

/-- `addPacket` keeps the builder's ghost frame stamp. -/
theorem addPacket_ghostFrame (cfg : Config) (b : BState) (pkt : UplinkPkt) :
    (addPacket cfg b pkt).ghostFrame = b.ghostFrame := by
  unfold addPacket
  by_cases h : isMissionDataPlt pkt.payloadType
  · rw [if_pos h, writeIfReady_ghostFrame, addToPlane_ghostFrame]
  · rw [if_neg h]
    by_cases h2 : b.oracle.headD false = true
    · simp only [h2, if_true]
    · simp only [Bool.not_eq_true] at h2
      simp only [h2, Bool.false_eq_true, if_false]
      rw [writeIfReady_ghostFrame, addToPlane_ghostFrame]

/-- Control-plane `addToPlane` in the overflow case: flush the control
accumulator as a CP message, then start it over with the new packet. -/
theorem addToPlane_ctl_flush (cfg : Config) (pkt : UplinkPkt) (b : BState)
    (h : MAX_MPLS_BATCH_SIZE < b.pendingControlSize + (pkt.bytes.length + 2)) :
    addToPlane cfg false pkt b =
      { b with queue := b.queue ++ [buildMessage cfg.msgId true b.ghostFrame b.pendingControl],
               pendingControl := [pkt],
               pendingControlSize := pkt.bytes.length + 2 } := by
  simp [addToPlane, h]

/-- Control-plane `addToPlane` in the no-overflow case: append the packet. -/
theorem addToPlane_ctl_app (cfg : Config) (pkt : UplinkPkt) (b : BState)
    (h : ¬ MAX_MPLS_BATCH_SIZE < b.pendingControlSize + (pkt.bytes.length + 2)) :
    addToPlane cfg false pkt b =
      { b with pendingControl := b.pendingControl ++ [pkt],
               pendingControlSize := b.pendingControlSize + (pkt.bytes.length + 2) } := by
  simp [addToPlane, h]

/-- Data-plane `addToPlane` in the overflow case: flush the data accumulator
as a DP message, then start it over with the new packet. -/
theorem addToPlane_dat_flush (cfg : Config) (pkt : UplinkPkt) (b : BState)
    (h : MAX_MPLS_BATCH_SIZE < b.pendingDataSize + (pkt.bytes.length + 2)) :
    addToPlane cfg true pkt b =
      { b with queue := b.queue ++ [buildMessage cfg.msgId false b.ghostFrame b.pendingData],
               pendingData := [pkt],
               pendingDataSize := pkt.bytes.length + 2 } := by
  simp [addToPlane, h]

/-- Data-plane `addToPlane` in the no-overflow case: append the packet. -/
theorem addToPlane_dat_app (cfg : Config) (pkt : UplinkPkt) (b : BState)
    (h : ¬ MAX_MPLS_BATCH_SIZE < b.pendingDataSize + (pkt.bytes.length + 2)) :
    addToPlane cfg true pkt b =
      { b with pendingData := b.pendingData ++ [pkt],
               pendingDataSize := b.pendingDataSize + (pkt.bytes.length + 2) } := by
  simp [addToPlane, h]

/-- `writeIfReady` when neither accumulator reaches the threshold. -/
theorem writeIfReady_none (cfg : Config) (t : Nat) (b : BState)
    (hc : ¬ t ≤ b.pendingControl.length) (hd : ¬ t ≤ b.pendingData.length) :
    writeIfReady cfg t b = b := by
  simp [writeIfReady, hc, hd]

/-- `writeIfReady` when only the control accumulator reaches the threshold. -/
theorem writeIfReady_ctl (cfg : Config) (t : Nat) (b : BState)
    (hc : t ≤ b.pendingControl.length) (hd : ¬ t ≤ b.pendingData.length) :
    writeIfReady cfg t b =
      { b with queue := b.queue ++ [buildMessage cfg.msgId true b.ghostFrame b.pendingControl],
               pendingControl := [] } := by
  simp [writeIfReady, hc, hd]

/-- `writeIfReady` when only the data accumulator reaches the threshold. -/
theorem writeIfReady_dat (cfg : Config) (t : Nat) (b : BState)
    (hc : ¬ t ≤ b.pendingControl.length) (hd : t ≤ b.pendingData.length) :
    writeIfReady cfg t b =
      { b with queue := b.queue ++ [buildMessage cfg.msgId false b.ghostFrame b.pendingData],
               pendingData := [] } := by
  simp [writeIfReady, hc, hd]

/-- `writeIfReady` when both accumulators reach the threshold: a CP message
followed by a DP message. -/
theorem writeIfReady_both (cfg : Config) (t : Nat) (b : BState)
    (hc : t ≤ b.pendingControl.length) (hd : t ≤ b.pendingData.length) :
    writeIfReady cfg t b =
      { b with queue := b.queue ++ [buildMessage cfg.msgId true b.ghostFrame b.pendingControl]
                 ++ [buildMessage cfg.msgId false b.ghostFrame b.pendingData],
               pendingControl := [], pendingData := [] } := by
  simp [writeIfReady, hc, hd]

/-- `addPacket` on a mission-data packet: straight to the data plane, no
drop-policy consultation. -/
theorem addPacket_mission (cfg : Config) (b : BState) (pkt : UplinkPkt)
    (h : isMissionDataPlt pkt.payloadType = true) :
    addPacket cfg b pkt = writeIfReady cfg cfg.maxPerTimeslot (addToPlane cfg true pkt b) := by
  simp [addPacket, h]

/-- `addPacket` on a non-mission packet the toSv policy drops: only the
policy decision is consumed. -/
theorem addPacket_dropped (cfg : Config) (b : BState) (pkt : UplinkPkt)
    (h : isMissionDataPlt pkt.payloadType = false) (ho : b.oracle.headD false = true) :
    addPacket cfg b pkt = { b with oracle := b.oracle.tail } := by
  rw [List.headD_eq_head?] at ho
  simp [addPacket, h, ho]

/-- `addPacket` on a non-mission packet the toSv policy passes: to the
control plane, with the policy decision consumed. -/
theorem addPacket_ctl (cfg : Config) (b : BState) (pkt : UplinkPkt)
    (h : isMissionDataPlt pkt.payloadType = false) (ho : b.oracle.headD false = false) :
    addPacket cfg b pkt =
      writeIfReady cfg cfg.maxPerTimeslot
        (addToPlane cfg false pkt { b with oracle := b.oracle.tail }) := by
  rw [List.headD_eq_head?] at ho
  simp [addPacket, h, ho]

/-- `sumNeeds` over an appended packet. -/
theorem sumNeeds_append (l : List UplinkPkt) (p : UplinkPkt) :
    sumNeeds (l ++ [p]) = sumNeeds l + (p.bytes.length + 2) := by
  simp [sumNeeds]

/-- `sumNeeds` of a singleton. -/
theorem sumNeeds_singleton (p : UplinkPkt) :
    sumNeeds [p] = p.bytes.length + 2 := by
  simp [sumNeeds]

/-- `addToPlane` preserves the delay-respect builder invariant when the added
packet is due at the builder's frame stamp. -/
theorem goodB_addToPlane (cfg : Config) (isData : Bool) (pkt : UplinkPkt) (b : BState)
    (hb : GoodB b) (hp : GoodPkt b.ghostFrame pkt) :
    GoodB (addToPlane cfg isData pkt b) := by
  obtain ⟨hc, hd, hq⟩ := hb
  cases isData
  · by_cases h : MAX_MPLS_BATCH_SIZE < b.pendingControlSize + (pkt.bytes.length + 2)
    · rw [addToPlane_ctl_flush cfg pkt b h]
      refine ⟨?_, hd, ?_⟩
      · intro p hp2
        dsimp only at hp2
        simp only [List.mem_singleton] at hp2
        subst hp2
        exact hp
      · intro m hm
        dsimp only at hm
        rcases List.mem_append.mp hm with hm | hm
        · exact hq m hm
        · simp only [List.mem_singleton] at hm
          subst hm
          exact hc
    · rw [addToPlane_ctl_app cfg pkt b h]
      refine ⟨?_, hd, hq⟩
      intro p hp2
      dsimp only at hp2
      rcases List.mem_append.mp hp2 with hp2 | hp2
      · exact hc p hp2
      · simp only [List.mem_singleton] at hp2
        subst hp2
        exact hp
  · by_cases h : MAX_MPLS_BATCH_SIZE < b.pendingDataSize + (pkt.bytes.length + 2)
    · rw [addToPlane_dat_flush cfg pkt b h]
      refine ⟨hc, ?_, ?_⟩
      · intro p hp2
        dsimp only at hp2
        simp only [List.mem_singleton] at hp2
        subst hp2
        exact hp
      · intro m hm
        dsimp only at hm
        rcases List.mem_append.mp hm with hm | hm
        · exact hq m hm
        · simp only [List.mem_singleton] at hm
          subst hm
          exact hd
    · rw [addToPlane_dat_app cfg pkt b h]
      refine ⟨hc, ?_, hq⟩
      intro p hp2
      dsimp only at hp2
      rcases List.mem_append.mp hp2 with hp2 | hp2
      · exact hd p hp2
      · simp only [List.mem_singleton] at hp2
        subst hp2
        exact hp

/-- `writeIfReady` preserves the delay-respect builder invariant. -/
theorem goodB_writeIfReady (cfg : Config) (t : Nat) (b : BState) (hb : GoodB b) :
    GoodB (writeIfReady cfg t b) := by
  obtain ⟨hc, hd, hq⟩ := hb
  by_cases h1 : t ≤ b.pendingControl.length <;> by_cases h2 : t ≤ b.pendingData.length
  · rw [writeIfReady_both cfg t b h1 h2]
    refine ⟨by simp, by simp, ?_⟩
    intro m hm
    dsimp only at hm
    rcases List.mem_append.mp hm with hm | hm
    · rcases List.mem_append.mp hm with hm | hm
      · exact hq m hm
      · simp only [List.mem_singleton] at hm
        subst hm
        exact hc
    · simp only [List.mem_singleton] at hm
      subst hm
      exact hd
  · rw [writeIfReady_ctl cfg t b h1 h2]
    refine ⟨by simp, hd, ?_⟩
    intro m hm
    dsimp only at hm
    rcases List.mem_append.mp hm with hm | hm
    · exact hq m hm
    · simp only [List.mem_singleton] at hm
      subst hm
      exact hc
  · rw [writeIfReady_dat cfg t b h1 h2]
    refine ⟨hc, by simp, ?_⟩
    intro m hm
    dsimp only at hm
    rcases List.mem_append.mp hm with hm | hm
    · exact hq m hm
    · simp only [List.mem_singleton] at hm
      subst hm
      exact hd
  · rw [writeIfReady_none cfg t b h1 h2]
    exact ⟨hc, hd, hq⟩

/-- `addPacket` preserves the delay-respect builder invariant. -/
theorem goodB_addPacket (cfg : Config) (b : BState) (pkt : UplinkPkt)
    (hb : GoodB b) (hp : GoodPkt b.ghostFrame pkt) :
    GoodB (addPacket cfg b pkt) := by
  by_cases h : isMissionDataPlt pkt.payloadType = true
  · rw [addPacket_mission cfg b pkt h]
    exact goodB_writeIfReady _ _ _ (goodB_addToPlane _ _ _ _ hb hp)
  · rw [Bool.not_eq_true] at h
    by_cases ho : b.oracle.headD false = true
    · rw [addPacket_dropped cfg b pkt h ho]
      exact hb
    · rw [Bool.not_eq_true] at ho
      rw [addPacket_ctl cfg b pkt h ho]
      have hb2 : GoodB { b with oracle := b.oracle.tail } := hb
      exact goodB_writeIfReady _ _ _ (goodB_addToPlane _ _ _ _ hb2 hp)

/-- A fold of `addPacket` over packets all due at the builder's frame stamp
preserves the delay-respect builder invariant (and the frame stamp). -/
theorem goodB_foldl (cfg : Config) (pkts : List UplinkPkt) :
    ∀ b : BState, GoodB b → (∀ p ∈ pkts, GoodPkt b.ghostFrame p) →
      GoodB (pkts.foldl (addPacket cfg) b) ∧
        (pkts.foldl (addPacket cfg) b).ghostFrame = b.ghostFrame := by
  induction pkts with
  | nil => exact fun b hb _ => ⟨hb, rfl⟩
  | cons p ps ih =>
    intro b hb hall
    have hp : GoodPkt b.ghostFrame p := hall p (List.mem_cons_self _ _)
    have hb2 := goodB_addPacket cfg b p hb hp
    have hfr := addPacket_ghostFrame cfg b p
    have hall2 : ∀ q ∈ ps, GoodPkt (addPacket cfg b p).ghostFrame q := by
      intro q hq
      rw [hfr]
      exact hall q (List.mem_cons_of_mem _ hq)
    obtain ⟨hg, he⟩ := ih (addPacket cfg b p) hb2 hall2
    exact ⟨hg, by rw [List.foldl_cons, he, hfr]⟩

/-- `finalizeB` preserves the delay-respect builder invariant. -/
theorem goodB_finalize (cfg : Config) (b : BState) (hb : GoodB b) :
    GoodB (finalizeB cfg b) :=
  goodB_writeIfReady cfg 1 b hb

/-- `addToPlane` preserves the batch-size builder invariant when the added
packet itself fits in a batch. -/
theorem sInv_addToPlane (cfg : Config) (isData : Bool) (pkt : UplinkPkt) (b : BState)
    (hb : SInv b) (hp : pkt.bytes.length + 2 ≤ MAX_MPLS_BATCH_SIZE) :
    SInv (addToPlane cfg isData pkt b) := by
  obtain ⟨hc1, hc2, hd1, hd2, hq⟩ := hb
  cases isData
  · by_cases h : MAX_MPLS_BATCH_SIZE < b.pendingControlSize + (pkt.bytes.length + 2)
    · rw [addToPlane_ctl_flush cfg pkt b h]
      refine ⟨by rw [sumNeeds_singleton], hp, hd1, hd2, ?_⟩
      intro m hm
      dsimp only at hm
      rcases List.mem_append.mp hm with hm | hm
      · exact hq m hm
      · simp only [List.mem_singleton] at hm
        subst hm
        exact le_trans hc1 hc2
    · rw [addToPlane_ctl_app cfg pkt b h]
      refine ⟨?_, by dsimp only; omega, hd1, hd2, hq⟩
      dsimp only
      rw [sumNeeds_append]
      omega
  · by_cases h : MAX_MPLS_BATCH_SIZE < b.pendingDataSize + (pkt.bytes.length + 2)
    · rw [addToPlane_dat_flush cfg pkt b h]
      refine ⟨hc1, hc2, by rw [sumNeeds_singleton], hp, ?_⟩
      intro m hm
      dsimp only at hm
      rcases List.mem_append.mp hm with hm | hm
      · exact hq m hm
      · simp only [List.mem_singleton] at hm
        subst hm
        exact le_trans hd1 hd2
    · rw [addToPlane_dat_app cfg pkt b h]
      refine ⟨hc1, hc2, ?_, by dsimp only; omega, hq⟩
      dsimp only
      rw [sumNeeds_append]
      omega

/-- `writeIfReady` preserves the batch-size builder invariant. -/
theorem sInv_writeIfReady (cfg : Config) (t : Nat) (b : BState) (hb : SInv b) :
    SInv (writeIfReady cfg t b) := by
  obtain ⟨hc1, hc2, hd1, hd2, hq⟩ := hb
  by_cases h1 : t ≤ b.pendingControl.length <;> by_cases h2 : t ≤ b.pendingData.length
  · rw [writeIfReady_both cfg t b h1 h2]
    refine ⟨by simp [sumNeeds], hc2, by simp [sumNeeds], hd2, ?_⟩
    intro m hm
    dsimp only at hm
    rcases List.mem_append.mp hm with hm | hm
    · rcases List.mem_append.mp hm with hm | hm
      · exact hq m hm
      · simp only [List.mem_singleton] at hm
        subst hm
        exact le_trans hc1 hc2
    · simp only [List.mem_singleton] at hm
      subst hm
      exact le_trans hd1 hd2
  · rw [writeIfReady_ctl cfg t b h1 h2]
    refine ⟨by simp [sumNeeds], hc2, hd1, hd2, ?_⟩
    intro m hm
    dsimp only at hm
    rcases List.mem_append.mp hm with hm | hm
    · exact hq m hm
    · simp only [List.mem_singleton] at hm
      subst hm
      exact le_trans hc1 hc2
  · rw [writeIfReady_dat cfg t b h1 h2]
    refine ⟨hc1, hc2, by simp [sumNeeds], hd2, ?_⟩
    intro m hm
    dsimp only at hm
    rcases List.mem_append.mp hm with hm | hm
    · exact hq m hm
    · simp only [List.mem_singleton] at hm
      subst hm
      exact le_trans hd1 hd2
  · rw [writeIfReady_none cfg t b h1 h2]
    exact ⟨hc1, hc2, hd1, hd2, hq⟩

/-- `addPacket` preserves the batch-size builder invariant when the added
packet itself fits in a batch. -/
theorem sInv_addPacket (cfg : Config) (b : BState) (pkt : UplinkPkt)
    (hb : SInv b) (hp : pkt.bytes.length + 2 ≤ MAX_MPLS_BATCH_SIZE) :
    SInv (addPacket cfg b pkt) := by
  by_cases h : isMissionDataPlt pkt.payloadType = true
  · rw [addPacket_mission cfg b pkt h]
    exact sInv_writeIfReady _ _ _ (sInv_addToPlane _ _ _ _ hb hp)
  · rw [Bool.not_eq_true] at h
    by_cases ho : b.oracle.headD false = true
    · rw [addPacket_dropped cfg b pkt h ho]
      exact hb
    · rw [Bool.not_eq_true] at ho
      rw [addPacket_ctl cfg b pkt h ho]
      have hb2 : SInv { b with oracle := b.oracle.tail } := hb
      exact sInv_writeIfReady _ _ _ (sInv_addToPlane _ _ _ _ hb2 hp)

/-- A fold of `addPacket` over packets that each fit in a batch preserves the
batch-size builder invariant. -/
theorem sInv_foldl (cfg : Config) (pkts : List UplinkPkt) :
    ∀ b : BState, SInv b → (∀ p ∈ pkts, p.bytes.length + 2 ≤ MAX_MPLS_BATCH_SIZE) →
      SInv (pkts.foldl (addPacket cfg) b) := by
  induction pkts with
  | nil => exact fun b hb _ => hb
  | cons p ps ih =>
    intro b hb hall
    exact ih (addPacket cfg b p)
      (sInv_addPacket cfg b p hb (hall p (List.mem_cons_self _ _)))
      (fun q hq => hall q (List.mem_cons_of_mem _ hq))

/-- `finalizeB` preserves the batch-size builder invariant. -/
theorem sInv_finalize (cfg : Config) (b : BState) (hb : SInv b) :
    SInv (finalizeB cfg b) :=
  sInv_writeIfReady cfg 1 b hb

/-- `addToPlane` preserves the plane-purity builder invariant when the packet
is added to the plane matching its payload type. -/
theorem pureB_addToPlane (cfg : Config) (isData : Bool) (pkt : UplinkPkt) (b : BState)
    (hb : PureB b) (hp : isMissionDataPlt pkt.payloadType = isData) :
    PureB (addToPlane cfg isData pkt b) := by
  obtain ⟨hc, hd, hq⟩ := hb
  cases isData
  · by_cases h : MAX_MPLS_BATCH_SIZE < b.pendingControlSize + (pkt.bytes.length + 2)
    · rw [addToPlane_ctl_flush cfg pkt b h]
      refine ⟨?_, hd, ?_⟩
      · intro p hp2
        dsimp only at hp2
        simp only [List.mem_singleton] at hp2
        subst hp2
        exact hp
      · intro m hm
        dsimp only at hm
        rcases List.mem_append.mp hm with hm | hm
        · exact hq m hm
        · simp only [List.mem_singleton] at hm
          subst hm
          intro p hp2
          simpa using hc p hp2
    · rw [addToPlane_ctl_app cfg pkt b h]
      refine ⟨?_, hd, hq⟩
      intro p hp2
      dsimp only at hp2
      rcases List.mem_append.mp hp2 with hp2 | hp2
      · exact hc p hp2
      · simp only [List.mem_singleton] at hp2
        subst hp2
        exact hp
  · by_cases h : MAX_MPLS_BATCH_SIZE < b.pendingDataSize + (pkt.bytes.length + 2)
    · rw [addToPlane_dat_flush cfg pkt b h]
      refine ⟨hc, ?_, ?_⟩
      · intro p hp2
        dsimp only at hp2
        simp only [List.mem_singleton] at hp2
        subst hp2
        exact hp
      · intro m hm
        dsimp only at hm
        rcases List.mem_append.mp hm with hm | hm
        · exact hq m hm
        · simp only [List.mem_singleton] at hm
          subst hm
          intro p hp2
          simpa using hd p hp2
    · rw [addToPlane_dat_app cfg pkt b h]
      refine ⟨hc, ?_, hq⟩
      intro p hp2
      dsimp only at hp2
      rcases List.mem_append.mp hp2 with hp2 | hp2
      · exact hd p hp2
      · simp only [List.mem_singleton] at hp2
        subst hp2
        exact hp

/-- `writeIfReady` preserves the plane-purity builder invariant. -/
theorem pureB_writeIfReady (cfg : Config) (t : Nat) (b : BState) (hb : PureB b) :
    PureB (writeIfReady cfg t b) := by
  obtain ⟨hc, hd, hq⟩ := hb
  by_cases h1 : t ≤ b.pendingControl.length <;> by_cases h2 : t ≤ b.pendingData.length
  · rw [writeIfReady_both cfg t b h1 h2]
    refine ⟨by simp, by simp, ?_⟩
    intro m hm
    dsimp only at hm
    rcases List.mem_append.mp hm with hm | hm
    · rcases List.mem_append.mp hm with hm | hm
      · exact hq m hm
      · simp only [List.mem_singleton] at hm
        subst hm
        intro p hp2
        simpa using hc p hp2
    · simp only [List.mem_singleton] at hm
      subst hm
      intro p hp2
      simpa using hd p hp2
  · rw [writeIfReady_ctl cfg t b h1 h2]
    refine ⟨by simp, hd, ?_⟩
    intro m hm
    dsimp only at hm
    rcases List.mem_append.mp hm with hm | hm
    · exact hq m hm
    · simp only [List.mem_singleton] at hm
      subst hm
      intro p hp2
      simpa using hc p hp2
  · rw [writeIfReady_dat cfg t b h1 h2]
    refine ⟨hc, by simp, ?_⟩
    intro m hm
    dsimp only at hm
    rcases List.mem_append.mp hm with hm | hm
    · exact hq m hm
    · simp only [List.mem_singleton] at hm
      subst hm
      intro p hp2
      simpa using hd p hp2
  · rw [writeIfReady_none cfg t b h1 h2]
    exact ⟨hc, hd, hq⟩

/-- `addPacket` preserves the plane-purity builder invariant. -/
theorem pureB_addPacket (cfg : Config) (b : BState) (pkt : UplinkPkt) (hb : PureB b) :
    PureB (addPacket cfg b pkt) := by
  by_cases h : isMissionDataPlt pkt.payloadType = true
  · rw [addPacket_mission cfg b pkt h]
    exact pureB_writeIfReady _ _ _ (pureB_addToPlane _ _ _ _ hb h)
  · rw [Bool.not_eq_true] at h
    by_cases ho : b.oracle.headD false = true
    · rw [addPacket_dropped cfg b pkt h ho]
      exact hb
    · rw [Bool.not_eq_true] at ho
      rw [addPacket_ctl cfg b pkt h ho]
      have hb2 : PureB { b with oracle := b.oracle.tail } := hb
      exact pureB_writeIfReady _ _ _ (pureB_addToPlane _ _ _ _ hb2 h)

/-- A fold of `addPacket` preserves the plane-purity builder invariant. -/
theorem pureB_foldl (cfg : Config) (pkts : List UplinkPkt) :
    ∀ b : BState, PureB b → PureB (pkts.foldl (addPacket cfg) b) := by
  induction pkts with
  | nil => exact fun b hb => hb
  | cons p ps ih =>
    intro b hb
    exact ih (addPacket cfg b p) (pureB_addPacket cfg b p hb)

/-- `finalizeB` preserves the plane-purity builder invariant. -/
theorem pureB_finalize (cfg : Config) (b : BState) (hb : PureB b) :
    PureB (finalizeB cfg b) :=
  pureB_writeIfReady cfg 1 b hb

/-- One `VMWInterface` operation preserves the delay-respect invariant and
advances the frame counter by at most one, provided the counter plus any
route delay cannot overflow 32 bits. -/
theorem vmwStep_inv (cfg : Config) (D : Nat) (hD : ∀ a b2 : Nat, cfg.delays a b2 ≤ D)
    (s : VMWSt) (ev : VMWEv) (hs : VInv s) (hb : s.kFrameCount + D + 1 < U32) :
    VInv (vmwStep cfg s ev) ∧ (vmwStep cfg s ev).kFrameCount ≤ s.kFrameCount + 1 := by
  obtain ⟨hdel, hque⟩ := hs
  cases ev with
  | sendITM itm src dst =>
    refine ⟨⟨?_, hque⟩, Nat.le_succ _⟩
    intro x hx
    dsimp only [vmwStep, vmwSendUplinkITM] at hx
    have hmod : (s.kFrameCount + cfg.delays src dst) % U32
        = s.kFrameCount + cfg.delays src dst := by
      have := hD src dst
      exact Nat.mod_eq_of_lt (by omega)
    rcases mem_mmInsert _ _ _ _ hx with hx | hx
    · subst hx
      exact ⟨by rw [hmod], le_refl _⟩
    · exact hdel x hx
  | sendMPLS mpls src dst =>
    refine ⟨⟨?_, hque⟩, Nat.le_succ _⟩
    intro x hx
    dsimp only [vmwStep, vmwSendUplinkMPLSPacket] at hx
    have hmod : (s.kFrameCount + cfg.delays src dst) % U32
        = s.kFrameCount + cfg.delays src dst := by
      have := hD src dst
      exact Nat.mod_eq_of_lt (by omega)
    rcases mem_mmInsert _ _ _ _ hx with hx | hx
    · subst hx
      exact ⟨by rw [hmod], le_refl _⟩
    · exact hdel x hx
  | passThrough msg =>
    refine ⟨⟨hdel, ?_⟩, Nat.le_succ _⟩
    intro m hm
    dsimp only [vmwStep, vmwSendUplinkPassThrough] at hm
    rcases List.mem_append.mp hm with hm | hm
    · exact hque m hm
    · simp only [List.mem_singleton] at hm
      subst hm
      intro p hp
      simp at hp
  | sokf =>
    have hmod : (s.kFrameCount + 1) % U32 = s.kFrameCount + 1 :=
      Nat.mod_eq_of_lt (by omega)
    dsimp only [vmwStep, vmwOnSOKF]
    rw [hmod]
    set c := s.kFrameCount + 1 with hc
    set dr := drainDue c s.writeDelayed with hdr
    have hGoodInit : GoodB (bInit s.writeQueue s.oracle c) := by
      refine ⟨?_, ?_, ?_⟩
      · intro p hp
        simp [bInit] at hp
      · intro p hp
        simp [bInit] at hp
      · intro m hm
        exact hque m hm
    have hpkts : ∀ p ∈ dr.1.map Prod.snd, GoodPkt (bInit s.writeQueue s.oracle c).ghostFrame p := by
      intro p hp
      rcases List.mem_map.mp hp with ⟨x, hx, hxp⟩
      obtain ⟨hxin, hxle⟩ := drainDue_mem_fst c s.writeDelayed x hx
      obtain ⟨hkey, _⟩ := hdel x hxin
      subst hxp
      show x.2.ghostEnqFrame + x.2.ghostDelay ≤ c
      rw [← hkey]
      exact hxle
    obtain ⟨hfold, _⟩ := goodB_foldl cfg (dr.1.map Prod.snd) (bInit s.writeQueue s.oracle c)
      hGoodInit hpkts
    have hfin := goodB_finalize cfg _ hfold
    refine ⟨⟨?_, hfin.2.2⟩, le_refl _⟩
    intro x hx
    have hxin := drainDue_mem_snd c s.writeDelayed x hx
    obtain ⟨hkey, hle⟩ := hdel x hxin
    exact ⟨hkey, le_trans hle (Nat.le_succ _)⟩

/-- A run of `VMWInterface` operations preserves the delay-respect invariant
when the operation count plus the largest route delay cannot overflow. -/
theorem vmwRun_inv (cfg : Config) (D : Nat) (hD : ∀ a b2 : Nat, cfg.delays a b2 ≤ D) :
    ∀ (evs : List VMWEv) (s : VMWSt), VInv s →
      s.kFrameCount + evs.length + D < U32 → VInv (vmwRun cfg s evs) := by
  intro evs
  induction evs with
  | nil => exact fun s hs _ => hs
  | cons e es ih =>
    intro s hs hb
    simp only [List.length_cons] at hb
    obtain ⟨hs2, hle⟩ := vmwStep_inv cfg D hD s e hs (by omega)
    exact ih (vmwStep cfg s e) hs2 (by omega)

/-- One `MDInterface` operation preserves the delay-respect invariant and
advances the frame counter by at most one. -/
theorem mdStep_inv (cfg : Config) (D : Nat) (hD : ∀ a b2 : Nat, cfg.delays a b2 ≤ D)
    (s : MDSt) (ev : MDEv) (hs : MInv s) (hb : s.kFrameCount + D + 1 < U32) :
    MInv (mdStep cfg s ev) ∧ (mdStep cfg s ev).kFrameCount ≤ s.kFrameCount + 1 := by
  obtain ⟨hdel, hque⟩ := hs
  cases ev with
  | send itm =>
    dsimp only [mdStep, mdSendDownlinkITM]
    by_cases hd : 0 < cfg.delays cfg.localNodeId (itmDst itm)
    · rw [if_pos hd]
      refine ⟨⟨?_, hque⟩, Nat.le_succ _⟩
      intro x hx
      dsimp only at hx
      have hmod : (s.kFrameCount + cfg.delays cfg.localNodeId (itmDst itm)) % U32
          = s.kFrameCount + cfg.delays cfg.localNodeId (itmDst itm) := by
        have := hD cfg.localNodeId (itmDst itm)
        exact Nat.mod_eq_of_lt (by omega)
      rcases mem_mmInsert _ _ _ _ hx with hx | hx
      · subst hx
        exact ⟨by rw [hmod], le_refl _⟩
      · exact hdel x hx
    · rw [if_neg hd]
      have hd0 : cfg.delays cfg.localNodeId (itmDst itm) = 0 := by omega
      refine ⟨⟨hdel, ?_⟩, Nat.le_succ _⟩
      intro r hr
      dsimp only at hr
      rcases List.mem_append.mp hr with hr | hr
      · exact hque r hr
      · simp only [List.mem_singleton] at hr
        subst hr
        simp [hd0]
  | sokf =>
    have hmod : (s.kFrameCount + 1) % U32 = s.kFrameCount + 1 :=
      Nat.mod_eq_of_lt (by omega)
    dsimp only [mdStep, mdOnSOKF]
    rw [hmod]
    set c := s.kFrameCount + 1 with hc
    refine ⟨⟨?_, ?_⟩, le_refl _⟩
    · intro x hx
      dsimp only at hx
      have hxin := drainDue_mem_snd c s.writeDelayed x hx
      obtain ⟨hkey, hle⟩ := hdel x hxin
      exact ⟨hkey, le_trans hle (Nat.le_succ _)⟩
    · intro r hr
      dsimp only at hr
      rcases List.mem_append.mp hr with hr | hr
      · exact hque r hr
      · rcases List.mem_map.mp hr with ⟨x, hx, hxr⟩
        obtain ⟨hxin, hxle⟩ := drainDue_mem_fst c s.writeDelayed x hx
        obtain ⟨hkey, _⟩ := hdel x hxin
        subst hxr
        dsimp only
        rw [← hkey]
        exact hxle

/-- A run of `MDInterface` operations preserves the delay-respect invariant
when the operation count plus the largest route delay cannot overflow. -/
theorem mdRun_inv (cfg : Config) (D : Nat) (hD : ∀ a b2 : Nat, cfg.delays a b2 ≤ D) :
    ∀ (evs : List MDEv) (s : MDSt), MInv s →
      s.kFrameCount + evs.length + D < U32 → MInv (mdRun cfg s evs) := by
  intro evs
  induction evs with
  | nil => exact fun s hs _ => hs
  | cons e es ih =>
    intro s hs hb
    simp only [List.length_cons] at hb
    obtain ⟨hs2, hle⟩ := mdStep_inv cfg D hD s e hs (by omega)
    exact ih (mdStep cfg s e) hs2 (by omega)

/-- C1: Delay respect.  Over any operation sequence of the VMW endpoint and
any operation sequence of the MD endpoint (starting from their initial
states, with route delays bounded by `D` and short enough runs that the
32-bit frame counter cannot wrap), every record that reaches a write queue is
placed there at a frame at least its enqueue frame plus its route delay: for
the VMW endpoint, every packet inside every queued message satisfies
`enqueue frame + delay ≤ push frame`; likewise for every queued MD record.
The proof rests on the delayed records being keyed `enqueue frame + delay`
and the SOKF drain only moving records whose key is at most the incremented
counter. -/
theorem mia_c1_delay_respect (cfg : Config) (D : Nat) (hD : ∀ a b2 : Nat, cfg.delays a b2 ≤ D)
    (oracle : List Bool) (evsV : List VMWEv) (evsM : List MDEv)
    (hV : evsV.length + D < U32) (hM : evsM.length + D < U32) :
    (∀ m ∈ (vmwRun cfg (vmwInit oracle) evsV).writeQueue, ∀ p ∈ m.ghostPackets,
       p.ghostEnqFrame + p.ghostDelay ≤ m.ghostPushedFrame) ∧
    (∀ r ∈ (mdRun cfg mdInit evsM).writeQueue,
       r.ghostEnqFrame + r.ghostDelay ≤ r.ghostPushedFrame) := by
  have hVinv : VInv (vmwInit oracle) := by
    constructor
    · intro x hx
      simp [vmwInit] at hx
    · intro m hm
      simp [vmwInit] at hm
  have hMinv : MInv mdInit := by
    constructor
    · intro x hx
      simp [mdInit] at hx
    · intro r hr
      simp [mdInit] at hr
  have h1 := vmwRun_inv cfg D hD evsV (vmwInit oracle) hVinv (by simp only [vmwInit]; omega)
  have h2 := mdRun_inv cfg D hD evsM mdInit hMinv (by simp only [mdInit]; omega)
  exact ⟨h1.2, h2.2⟩

/-- Witness for C1 at a concrete configuration and concrete three-operation
runs of both endpoints. -/
theorem mia_c1_delay_respect_witness :
    (∀ a b2 : Nat, cfgA.delays a b2 ≤ 2) ∧
    (([VMWEv.sendITM itmW 1 2, VMWEv.sokf, VMWEv.sokf] : List VMWEv).length + 2 < U32) ∧
    (([MDEv.send itmW, MDEv.sokf, MDEv.sokf] : List MDEv).length + 2 < U32) ∧
    ((∀ m ∈ (vmwRun cfgA (vmwInit []) [VMWEv.sendITM itmW 1 2, VMWEv.sokf, VMWEv.sokf]).writeQueue,
        ∀ p ∈ m.ghostPackets, p.ghostEnqFrame + p.ghostDelay ≤ m.ghostPushedFrame) ∧
     (∀ r ∈ (mdRun cfgA mdInit [MDEv.send itmW, MDEv.sokf, MDEv.sokf]).writeQueue,
        r.ghostEnqFrame + r.ghostDelay ≤ r.ghostPushedFrame)) := by
  refine ⟨fun a b2 => Nat.le_refl 2, by decide, by decide, ?_⟩
  exact mia_c1_delay_respect cfgA 2 (fun a b2 => Nat.le_refl 2) [] _ _ (by decide) (by decide)

/-- C2 (amended): Batch size limit under the hypothesis the counterexample
forces.  Provided every packet handed to `add_packet` itself fits in a batch
(`stored bytes + 2 ≤ MAX_MPLS_BATCH_SIZE`), every message the builder pushes
to the write queue over any `add_packet` sequence followed by `finalize` has
its sum of `(packet byte length + 2)` at most `MAX_MPLS_BATCH_SIZE`. -/
theorem mia_c2_batch_size_amended (cfg : Config) (oracle : List Bool) (frame : Nat)
    (pkts : List UplinkPkt)
    (hp : ∀ p ∈ pkts, p.bytes.length + 2 ≤ MAX_MPLS_BATCH_SIZE) :
    ∀ m ∈ (finalizeB cfg (pkts.foldl (addPacket cfg) (bInit [] oracle frame))).queue,
      sumNeeds m.ghostPackets ≤ MAX_MPLS_BATCH_SIZE := by
  have h0 : SInv (bInit [] oracle frame) := by
    refine ⟨?_, ?_, ?_, ?_, ?_⟩ <;> simp [bInit, sumNeeds, MAX_MPLS_BATCH_SIZE]
  exact (sInv_finalize cfg _ (sInv_foldl cfg pkts _ h0 hp)).2.2.2.2

/-- Witness for the amended C2 at a concrete one-packet run. -/
theorem mia_c2_batch_size_witness :
    (∀ p ∈ [pkt9], p.bytes.length + 2 ≤ MAX_MPLS_BATCH_SIZE) ∧
    (∀ m ∈ (finalizeB cfgA ([pkt9].foldl (addPacket cfgA) (bInit [] [] 0))).queue,
       sumNeeds m.ghostPackets ≤ MAX_MPLS_BATCH_SIZE) := by
  refine ⟨by decide, ?_⟩
  exact mia_c2_batch_size_amended cfgA [] 0 [pkt9] (by decide)

/-- Counterexample to C2 as stated: a single `add_packet` call with a stored
packet of 38879 bytes (so `38879 + 2 > 38880`), followed by `finalize`,
pushes a batch whose `(length + 2)` sum exceeds `MAX_MPLS_BATCH_SIZE`; the
overflow check in `add_packet` flushes before appending, so an oversized
packet always lands in an emitted batch. -/
theorem mia_c2_counterexample :
    ∃ m ∈ (finalizeB cfgA (addPacket cfgA (bInit [] [] 0) bigPkt)).queue,
      MAX_MPLS_BATCH_SIZE < sumNeeds m.ghostPackets := by
  have hlen : bigPkt.bytes.length = 38879 := by
    show (List.replicate 38879 (0 : Nat)).length = 38879
    exact List.length_replicate _ _
  have hmis : isMissionDataPlt bigPkt.payloadType = true := rfl
  have e1 : addPacket cfgA (bInit [] [] 0) bigPkt
      = writeIfReady cfgA cfgA.maxPerTimeslot (addToPlane cfgA true bigPkt (bInit [] [] 0)) :=
    addPacket_mission _ _ _ hmis
  have hov : MAX_MPLS_BATCH_SIZE <
      (bInit ([] : List UplinkMessage) [] 0).pendingDataSize + (bigPkt.bytes.length + 2) := by
    rw [hlen]
    norm_num [bInit, MAX_MPLS_BATCH_SIZE]
  have e2 := addToPlane_dat_flush cfgA bigPkt (bInit [] [] 0) hov
  rw [e1, e2]
  rw [writeIfReady_none cfgA cfgA.maxPerTimeslot _
    (by norm_num [bInit, cfgA]) (by norm_num [bInit, cfgA])]
  unfold finalizeB
  rw [writeIfReady_dat cfgA 1 _ (by norm_num [bInit]) (by norm_num [bInit])]
  refine ⟨buildMessage cfgA.msgId false 0 [bigPkt], ?_, ?_⟩
  · dsimp only [bInit]
    simp only [List.mem_append, List.mem_singleton, List.nil_append]
    exact Or.inr trivial
  · dsimp only [buildMessage]
    rw [sumNeeds_singleton, hlen]
    decide

/-- C3: Plane purity.  Every batch the builder emits is pure: a CP-tagged
message contains only non-mission payload types and a DP-tagged message only
mission-data payload types (conjunct 1, over any `add_packet` run followed by
`finalize`).  Mission-data packets are accepted without consulting the toSv
policy (conjunct 2: the decision stream is untouched); a non-mission packet
the policy drops changes nothing but the consumed decision (conjunct 3); and
the planes' accumulators receive the packet itself (conjunct 4). -/
theorem mia_c3_plane_purity (cfg : Config) (oracle : List Bool) (frame : Nat)
    (pkts : List UplinkPkt) (b : BState) (pkt : UplinkPkt) :
    (∀ m ∈ (finalizeB cfg (pkts.foldl (addPacket cfg) (bInit [] oracle frame))).queue,
       ∀ p ∈ m.ghostPackets, isMissionDataPlt p.payloadType = !m.destCP) ∧
    (isMissionDataPlt pkt.payloadType = true → (addPacket cfg b pkt).oracle = b.oracle) ∧
    (isMissionDataPlt pkt.payloadType = false → b.oracle.headD false = true →
       addPacket cfg b pkt = { b with oracle := b.oracle.tail }) ∧
    (pkt ∈ (addToPlane cfg false pkt b).pendingControl ∧
     pkt ∈ (addToPlane cfg true pkt b).pendingData) := by
  refine ⟨?_, ?_, ?_, ?_, ?_⟩
  · have h0 : PureB (bInit [] oracle frame) := by
      refine ⟨?_, ?_, ?_⟩
      · intro p hp
        simp [bInit] at hp
      · intro p hp
        simp [bInit] at hp
      · intro m hm
        simp [bInit] at hm
    exact (pureB_finalize cfg _ (pureB_foldl cfg pkts _ h0)).2.2
  · intro h
    rw [addPacket_mission cfg b pkt h, writeIfReady_oracle, addToPlane_oracle]
  · intro h ho
    exact addPacket_dropped cfg b pkt h ho
  · by_cases h : MAX_MPLS_BATCH_SIZE < b.pendingControlSize + (pkt.bytes.length + 2)
    · rw [addToPlane_ctl_flush cfg pkt b h]
      simp
    · rw [addToPlane_ctl_app cfg pkt b h]
      simp
  · by_cases h : MAX_MPLS_BATCH_SIZE < b.pendingDataSize + (pkt.bytes.length + 2)
    · rw [addToPlane_dat_flush cfg pkt b h]
      simp
    · rw [addToPlane_dat_app cfg pkt b h]
      simp

/-- Witness for C3 at a concrete run with one mission-data and one control
packet, plus the per-call conjuncts discharged at concrete states. -/
theorem mia_c3_plane_purity_witness :
    (∀ m ∈ (finalizeB cfgA ([pkt9, pktC].foldl (addPacket cfgA) (bInit [] [false] 0))).queue,
       ∀ p ∈ m.ghostPackets, isMissionDataPlt p.payloadType = !m.destCP) ∧
    (addPacket cfgA (bInit [] [false] 0) pkt9).oracle = (bInit [] [false] 0).oracle ∧
    addPacket cfgA (bInit [] [true] 0) pktC = { bInit [] [true] 0 with oracle := [] } := by
  refine ⟨(mia_c3_plane_purity cfgA [false] 0 [pkt9, pktC] (bInit [] [false] 0) pkt9).1,
    (mia_c3_plane_purity cfgA [false] 0 [pkt9, pktC] (bInit [] [false] 0) pkt9).2.1 (by decide),
    ?_⟩
  have h := (mia_c3_plane_purity cfgA [] 0 [] (bInit [] [true] 0) pktC).2.2.1
    (by decide) (by decide)
  exact h

/-- The HPL-flagging fold of `VMWInterface::HandleReadData` computes the
disjunction of the flag over the walked buffers and appends exactly the
unflagged buffers, in order. -/
theorem hplFoldAux (p : List Nat → Bool) :
    ∀ (bufs : List (List Nat)) (flag : Bool) (acc : List (List Nat)),
      bufs.foldl (fun (a : Bool × List (List Nat)) buf =>
          if p buf then (true, a.2) else (a.1, a.2 ++ [buf])) (flag, acc)
        = (flag || bufs.any p, acc ++ bufs.filter (fun x => !p x)) := by
  intro bufs
  induction bufs with
  | nil => intro flag acc; simp
  | cons x xs ih =>
    intro flag acc
    by_cases hx : p x = true
    · simp [hx, ih]
    · rw [Bool.not_eq_true] at hx
      simp [hx, ih]

/-- C4: VMW downlink receive behaviour.  When the parser returns the empty
vector, `TotalInvalidMplsPacketsDiscarded` is incremented and nothing is
routed; otherwise `TotalMplsPacketsConverted` is incremented, exactly the
sub-packets whose ITM destination differs from `HPL_NODE_ID` are handed to
`RouteDownlinkMPLSPacket` in order, and the whole batch is forwarded as
pass-through exactly when some sub-packet is destined to `HPL_NODE_ID`. -/
theorem mia_c4_vmw_downlink (cfg : Config) (bytes : List Nat) :
    (vmwPerform cfg.defs bytes = [] →
       vmwHandleReadData cfg bytes =
         { discardedInc := 1, convertedInc := 0, routed := [], passThroughMsg := none }) ∧
    (vmwPerform cfg.defs bytes ≠ [] →
       vmwHandleReadData cfg bytes =
         { discardedInc := 0, convertedInc := 1,
           routed := (vmwPerform cfg.defs bytes).filter
             (fun x => !(itmDst (x.drop 4) == cfg.hplNodeId)),
           passThroughMsg :=
             if (vmwPerform cfg.defs bytes).any (fun x => itmDst (x.drop 4) == cfg.hplNodeId)
             then some bytes else none }) := by
  constructor
  · intro h
    simp [vmwHandleReadData, h]
  · intro h
    have hne : (vmwPerform cfg.defs bytes).isEmpty = false := by
      cases hl : vmwPerform cfg.defs bytes with
      | nil => exact absurd hl h
      | cons a as => rfl
    simp only [vmwHandleReadData]
    rw [hplFoldAux (fun x => itmDst (x.drop 4) == cfg.hplNodeId)]
    simp [hne]

/-- Witness for C4: the failing branch at the zero-packet message `bZero` and
the succeeding branch at the one-packet batch `msgW`. -/
theorem mia_c4_vmw_downlink_witness :
    (vmwPerform cfgA.defs bZero = []) ∧
    (vmwPerform cfgA.defs msgW ≠ []) ∧
    vmwHandleReadData cfgA bZero =
      { discardedInc := 1, convertedInc := 0, routed := [], passThroughMsg := none } ∧
    vmwHandleReadData cfgA msgW =
      { discardedInc := 0, convertedInc := 1,
        routed := (vmwPerform cfgA.defs msgW).filter
          (fun x => !(itmDst (x.drop 4) == cfgA.hplNodeId)),
        passThroughMsg :=
          if (vmwPerform cfgA.defs msgW).any (fun x => itmDst (x.drop 4) == cfgA.hplNodeId)
          then some msgW else none } :=
  ⟨by decide, by decide,
   (mia_c4_vmw_downlink cfgA bZero).1 (by decide),
   (mia_c4_vmw_downlink cfgA msgW).2 (by decide)⟩

/-- C6 (amended): MD uplink source node.  Every packet the MD endpoint
accepts is forwarded via `RouteUplinkITM` with the source node taken from the
ITM header's `sourceNode` byte (byte 4 of the `itm_header1_alt_t` view) — not
from the configured local node id — and the destination node from the
header's destination byte. -/
theorem mia_c6_md_uplink_amended (cfg : Config) (itm : List Nat)
    (r : List Nat × Nat × Nat) (h : mdHandleReadData cfg itm = some r) :
    r = (itm, itm.getD 4 0, itmDst itm) := by
  unfold mdHandleReadData at h
  by_cases h5 : itm.length < 5
  · rw [if_pos h5] at h
    exact Option.noConfusion h
  · rw [if_neg h5] at h
    dsimp only at h
    by_cases hv : itmIsVITM itm = true
    · rw [if_pos hv] at h
      by_cases hsz : itm.length - 5 < cfg.defs.minVitmPayload ∨
          cfg.defs.maxVitmPayload < itm.length - 5
      · rw [if_pos hsz] at h
        exact Option.noConfusion h
      · rw [if_neg hsz] at h
        by_cases hm : (!isMissionDataPlt (itmPlt itm)) = true
        · rw [if_pos hm] at h
          exact Option.noConfusion h
        · rw [if_neg hm] at h
          injection h with h2
          exact h2.symm
    · rw [if_neg hv] at h
      by_cases hsz : itm.length - 5 ≠ cfg.defs.fixedItmPayload
      · rw [if_pos hsz] at h
        exact Option.noConfusion h
      · rw [if_neg hsz] at h
        by_cases hm : (!isMissionDataPlt (itmPlt itm)) = true
        · rw [if_pos hm] at h
          exact Option.noConfusion h
        · rw [if_neg hm] at h
          injection h with h2
          exact h2.symm

/-- Witness for the amended C6 at the concrete accepted packet `itmW`. -/
theorem mia_c6_md_uplink_witness :
    mdHandleReadData cfgA itmW = some (itmW, 7, 2) ∧
    ((itmW, 7, 2) : List Nat × Nat × Nat) = (itmW, itmW.getD 4 0, itmDst itmW) :=
  ⟨by decide, mia_c6_md_uplink_amended cfgA itmW (itmW, 7, 2) (by decide)⟩

/-- Counterexample to C6 as stated: the accepted packet `itmW` (whose header
`sourceNode` byte is 7) is forwarded with source node 7, which differs from
the configured local node id 5 of `cfgA`; the code reads the source from the
header, not from the configuration. -/
theorem mia_c6_md_uplink_counterexample :
    mdHandleReadData cfgA itmW = some (itmW, 7, 2) ∧ (7 : Nat) ≠ cfgA.localNodeId := by
  constructor
  · decide
  · decide

/-- C7: SOKF miss counting.  Once synchronized, a valid SOKF with offset
`off` delivers the timing callback, adds `elapsed - 1` to `TotalSokfMissed`
exactly when `elapsed > 1` (where `elapsed` is the wrap-around difference
with `NUM_K_FRAME_OFFSETS = 10`), and stores `off` as the previous offset.
For the offset sequence 3, 4, 6, 7 from the synchronizing state,
`TotalSokfMissed` rises by exactly 1 and four callbacks are delivered, so the
per-endpoint frame counters of the VMW and MD endpoints advance by 4. -/
theorem mia_c7_sokf_miss (cfg : Config) (s : SokfSt) (off : Nat)
    (hc : s.closed = false) (hs : s.synchronizing = false) (ho : off ≤ 9) :
    (sokfHandle cfg s cfg.tacSokfMsgId 12 off =
      { s with framesDelivered := s.framesDelivered + 1,
               totalSokfMissed := s.totalSokfMissed +
                 (if 1 < sokfElapsed s.prevKframeOffset off then
                    sokfElapsed s.prevKframeOffset off - 1 else 0),
               prevKframeOffset := off }) ∧
    ([3, 4, 6, 7].foldl (fun u o => sokfHandle cfgA u cfgA.tacSokfMsgId 12 o)
        sokfInit).totalSokfMissed = 1 ∧
    ([3, 4, 6, 7].foldl (fun u o => sokfHandle cfgA u cfgA.tacSokfMsgId 12 o)
        sokfInit).framesDelivered = 4 ∧
    (vmwRun cfgA (vmwInit []) [VMWEv.sokf, VMWEv.sokf, VMWEv.sokf, VMWEv.sokf]).kFrameCount = 4 ∧
    (mdRun cfgA mdInit [MDEv.sokf, MDEv.sokf, MDEv.sokf, MDEv.sokf]).kFrameCount = 4 := by
  refine ⟨?_, by decide, by decide, by decide, by decide⟩
  have hno : ¬ 9 < off := by omega
  simp [sokfHandle, hc, hs, hno]

/-- Witness for C7 at the concrete synchronized state `s7` and offset 6
(elapsed 2, so one missed K-frame is counted). -/
theorem mia_c7_sokf_miss_witness :
    (s7.closed = false) ∧ (s7.synchronizing = false) ∧ ((6 : Nat) ≤ 9) ∧
    sokfHandle cfgA s7 cfgA.tacSokfMsgId 12 6 =
      { s7 with framesDelivered := s7.framesDelivered + 1,
                totalSokfMissed := s7.totalSokfMissed +
                  (if 1 < sokfElapsed s7.prevKframeOffset 6 then
                     sokfElapsed s7.prevKframeOffset 6 - 1 else 0),
                prevKframeOffset := 6 } :=
  ⟨rfl, rfl, by decide,
   (mia_c7_sokf_miss cfgA s7 6 rfl rfl (by decide)).1⟩

/-- C8: Downlink routing decision.  A downlink MPLS packet goes to the MD
endpoint (stripped of its MPLS header) exactly when its ITM destination is in
the bypass-TPN set and its payload type is mission data; otherwise the toSim
drop decision is consumed and the packet goes intact to the TPN endpoint
exactly when that decision is not to drop; a dropped packet reaches no
endpoint. -/
theorem mia_c8_downlink_routing (cfg : Config) (oracle : List Bool) (mpls : List Nat) :
    ((routeDownlinkMPLSPacket cfg oracle mpls).1 = DownlinkDest.toMD (mpls.drop 4) ↔
       (cfg.bypass (itmDst (mpls.drop 4)) && isMissionDataPlt (itmPlt (mpls.drop 4))) = true) ∧
    ((routeDownlinkMPLSPacket cfg oracle mpls).1 = DownlinkDest.toTPN mpls ↔
       ((cfg.bypass (itmDst (mpls.drop 4)) && isMissionDataPlt (itmPlt (mpls.drop 4))) = false ∧
        oracle.headD false = false)) ∧
    ((routeDownlinkMPLSPacket cfg oracle mpls).1 = DownlinkDest.dropped ↔
       ((cfg.bypass (itmDst (mpls.drop 4)) && isMissionDataPlt (itmPlt (mpls.drop 4))) = false ∧
        oracle.headD false = true)) ∧
    ((routeDownlinkMPLSPacket cfg oracle mpls).2 =
       if (cfg.bypass (itmDst (mpls.drop 4)) && isMissionDataPlt (itmPlt (mpls.drop 4))) = true
       then oracle else oracle.tail) := by
  by_cases hf : (cfg.bypass (itmDst (mpls.drop 4)) && isMissionDataPlt (itmPlt (mpls.drop 4))) = true
  · simp [routeDownlinkMPLSPacket, hf]
  · rw [Bool.not_eq_true] at hf
    by_cases ho : oracle.headD false = true
    · rw [List.headD_eq_head?] at ho
      simp [routeDownlinkMPLSPacket, hf, ho]
    · rw [Bool.not_eq_true, List.headD_eq_head?] at ho
      simp [routeDownlinkMPLSPacket, hf, ho]

/-- C10: VMW uplink deferral.  `SendUplinkITM` and `SendUplinkMPLSPacket`
never touch the VMW write queue during the submitting call; each inserts one
record into the delayed multimap keyed `k_frame_count_ + delay` (32-bit
addition) even when the delay is 0, so the packet can reach the write queue
only during a later `OnSOKF`.  The MD endpoint, by contrast, pushes a
zero-delay packet onto its write queue immediately, leaving its delayed map
unchanged. -/
theorem mia_c10_vmw_deferral (cfg : Config) (s : VMWSt) (t : MDSt)
    (itm mpls itm2 : List Nat) (src dst : Nat) :
    ((vmwSendUplinkITM cfg s itm src dst).writeQueue = s.writeQueue) ∧
    ((vmwSendUplinkMPLSPacket cfg s mpls src dst).writeQueue = s.writeQueue) ∧
    (∃ p : UplinkPkt, p.ghostEnqFrame = s.kFrameCount ∧ p.ghostDelay = cfg.delays src dst ∧
       ((s.kFrameCount + cfg.delays src dst) % U32, p)
         ∈ (vmwSendUplinkITM cfg s itm src dst).writeDelayed) ∧
    (∃ p : UplinkPkt, p.ghostEnqFrame = s.kFrameCount ∧ p.ghostDelay = cfg.delays src dst ∧
       ((s.kFrameCount + cfg.delays src dst) % U32, p)
         ∈ (vmwSendUplinkMPLSPacket cfg s mpls src dst).writeDelayed) ∧
    (cfg.delays cfg.localNodeId (itmDst itm2) = 0 →
       (mdSendDownlinkITM cfg t itm2).writeQueue =
         t.writeQueue ++ [{ bytes := itm2, ghostPushedFrame := t.kFrameCount,
                            ghostEnqFrame := t.kFrameCount, ghostDelay := 0 }] ∧
       (mdSendDownlinkITM cfg t itm2).writeDelayed = t.writeDelayed) := by
  refine ⟨rfl, rfl, ?_, ?_, ?_⟩
  · exact ⟨_, rfl, rfl, self_mem_mmInsert _ _ _⟩
  · exact ⟨_, rfl, rfl, self_mem_mmInsert _ _ _⟩
  · intro h0
    constructor
    · simp [mdSendDownlinkITM, h0]
    · simp [mdSendDownlinkITM, h0]

/-- Witness for C10 at the zero-delay configuration `cfgB` with concrete
states and packets. -/
theorem mia_c10_vmw_deferral_witness :
    (cfgB.delays cfgB.localNodeId (itmDst itmW) = 0) ∧
    ((vmwSendUplinkITM cfgB (vmwInit []) itmW 1 2).writeQueue = (vmwInit []).writeQueue) ∧
    ((mdSendDownlinkITM cfgB mdInit itmW).writeQueue =
       mdInit.writeQueue ++ [{ bytes := itmW, ghostPushedFrame := mdInit.kFrameCount,
                               ghostEnqFrame := mdInit.kFrameCount, ghostDelay := 0 }] ∧
     (mdSendDownlinkITM cfgB mdInit itmW).writeDelayed = mdInit.writeDelayed) := by
  have h := mia_c10_vmw_deferral cfgB (vmwInit []) mdInit itmW [] itmW 1 2
  exact ⟨rfl, h.1, h.2.2.2.2 rfl⟩

/-- `MineMPLSPacket` fails exactly on the claimed per-packet conditions. -/
theorem mineMPLSPacket_none_iff (d : SizeDefs) (rem : List Nat) :
    mineMPLSPacket d rem = none ↔
      (rem.length < 2 ∨ rd16 rem 0 < 9 ∨ rem.length < 2 + rd16 rem 0 ∨
       sizeClassBad d (rd16 rem 0) ((rem.drop 2).take (rd16 rem 0)) = true) := by
  unfold mineMPLSPacket
  by_cases h2 : rem.length < 2
  · simp [h2]
  · rw [if_neg h2]
    dsimp only
    by_cases h9 : rd16 rem 0 < 9
    · simp [h9]
    · rw [if_neg h9]
      have hld : (rem.drop 2).length = rem.length - 2 := List.length_drop _ _
      by_cases hr : (rem.drop 2).length < rd16 rem 0
      · rw [if_pos hr]
        have hr2 : rem.length < 2 + rd16 rem 0 := by omega
        simp [hr2]
      · rw [if_neg hr]
        have hr2 : ¬ rem.length < 2 + rd16 rem 0 := by omega
        unfold sizeClassBad
        by_cases hv : itmIsVITM (((rem.drop 2).take (rd16 rem 0)).drop 4) = true
        · rw [if_pos hv, if_pos hv]
          by_cases hb : rd16 rem 0 < 9 + d.minVitmPayload ∨ 9 + d.maxVitmPayload < rd16 rem 0
          · rw [if_pos hb]
            constructor
            · intro _
              refine Or.inr (Or.inr (Or.inr ?_))
              simp only [Bool.or_eq_true, decide_eq_true_eq]
              exact hb
            · intro _
              rfl
          · rw [if_neg hb]
            constructor
            · intro hcontra
              exact Option.noConfusion hcontra
            · intro hcontra
              rcases hcontra with h | h | h | h
              · exact absurd h h2
              · exact absurd h h9
              · exact absurd h hr2
              · rw [Bool.or_eq_true, decide_eq_true_eq, decide_eq_true_eq] at h
                exact absurd h hb
        · rw [if_neg hv, if_neg hv]
          by_cases hb : rd16 rem 0 ≠ 9 + d.fixedItmPayload
          · rw [if_pos hb]
            constructor
            · intro _
              refine Or.inr (Or.inr (Or.inr ?_))
              simpa using hb
            · intro _
              rfl
          · rw [if_neg hb]
            constructor
            · intro hcontra
              exact Option.noConfusion hcontra
            · intro hcontra
              rcases hcontra with h | h | h | h
              · exact absurd h h2
              · exact absurd h h9
              · exact absurd h hr2
              · rw [decide_eq_true_eq] at h
                exact absurd h hb

/-- A successful `MineMPLSPacket` yields the window at the mined length and
the remainder past it. -/
theorem mineMPLSPacket_some (d : SizeDefs) (rem pkt rest : List Nat)
    (h : mineMPLSPacket d rem = some (pkt, rest)) :
    pkt = (rem.drop 2).take (rd16 rem 0) ∧ rest = rem.drop (2 + rd16 rem 0) := by
  have hdd : (rem.drop 2).drop (rd16 rem 0) = rem.drop (2 + rd16 rem 0) := by
    rw [List.drop_drop, Nat.add_comm]
  unfold mineMPLSPacket at h
  by_cases h2 : rem.length < 2
  · rw [if_pos h2] at h
    exact Option.noConfusion h
  · rw [if_neg h2] at h
    dsimp only at h
    by_cases h9 : rd16 rem 0 < 9
    · rw [if_pos h9] at h
      exact Option.noConfusion h
    · rw [if_neg h9] at h
      by_cases hr : (rem.drop 2).length < rd16 rem 0
      · rw [if_pos hr] at h
        exact Option.noConfusion h
      · rw [if_neg hr] at h
        by_cases hv : itmIsVITM (((rem.drop 2).take (rd16 rem 0)).drop 4) = true
        · rw [if_pos hv] at h
          by_cases hb : rd16 rem 0 < 9 + d.minVitmPayload ∨ 9 + d.maxVitmPayload < rd16 rem 0
          · rw [if_pos hb] at h
            exact Option.noConfusion h
          · rw [if_neg hb] at h
            injection h with h3
            rw [Prod.mk.injEq] at h3
            exact ⟨h3.1.symm, by rw [← h3.2, hdd]⟩
        · rw [if_neg hv] at h
          by_cases hb : rd16 rem 0 ≠ 9 + d.fixedItmPayload
          · rw [if_pos hb] at h
            exact Option.noConfusion h
          · rw [if_neg hb] at h
            injection h with h3
            rw [Prod.mk.injEq] at h3
            exact ⟨h3.1.symm, by rw [← h3.2, hdd]⟩

/-- The mining loop fails exactly when the claimed per-sub-packet failure
conditions hold along the claimed offsets. -/
theorem vmwMineLoop_none_iff (d : SizeDefs) :
    ∀ (k : Nat) (rem : List Nat),
      vmwMineLoop d k rem = none ↔ claimSubFail d k rem = true := by
  intro k
  induction k with
  | zero =>
    intro rem
    simp [vmwMineLoop, claimSubFail]
  | succ n ih =>
    intro rem
    cases hm : mineMPLSPacket d rem with
    | none =>
      have hbad := (mineMPLSPacket_none_iff d rem).mp hm
      constructor
      · intro _
        rw [claimSubFail]
        simp only [Bool.or_eq_true, decide_eq_true_eq]
        tauto
      · intro _
        simp [vmwMineLoop, hm]
    | some pr =>
      obtain ⟨pkt, rest⟩ := pr
      obtain ⟨hp, hr⟩ := mineMPLSPacket_some d rem pkt rest hm
      have hgood : ¬ (rem.length < 2 ∨ rd16 rem 0 < 9 ∨ rem.length < 2 + rd16 rem 0 ∨
          sizeClassBad d (rd16 rem 0) ((rem.drop 2).take (rd16 rem 0)) = true) := by
        intro hc
        have := (mineMPLSPacket_none_iff d rem).mpr hc
        rw [hm] at this
        exact Option.noConfusion this
      have hg1 : ¬ rem.length < 2 := fun hc => hgood (Or.inl hc)
      have hg2 : ¬ rd16 rem 0 < 9 := fun hc => hgood (Or.inr (Or.inl hc))
      have hg3 : ¬ rem.length < 2 + rd16 rem 0 := fun hc => hgood (Or.inr (Or.inr (Or.inl hc)))
      have hg4 : ¬ sizeClassBad d (rd16 rem 0) ((rem.drop 2).take (rd16 rem 0)) = true :=
        fun hc => hgood (Or.inr (Or.inr (Or.inr hc)))
      have hL : vmwMineLoop d (Nat.succ n) rem
          = Option.map (fun l => pkt :: l) (vmwMineLoop d n rest) := by
        simp only [vmwMineLoop, hm]
        cases vmwMineLoop d n rest <;> rfl
      have hihr : vmwMineLoop d n rest = none ↔
          claimSubFail d n (rem.drop (2 + rd16 rem 0)) = true := by
        rw [← hr]
        exact ih rest
      rw [hL, claimSubFail]
      simp only [Option.map_eq_none', Bool.or_eq_true, decide_eq_true_eq]
      rw [hihr]
      tauto

/-- A successful mining loop returns exactly as many packets as requested. -/
theorem vmwMineLoop_length (d : SizeDefs) :
    ∀ (k : Nat) (rem : List Nat) (l : List (List Nat)),
      vmwMineLoop d k rem = some l → l.length = k := by
  intro k
  induction k with
  | zero =>
    intro rem l h
    injection h with h2
    rw [← h2]
    rfl
  | succ n ih =>
    intro rem l h
    cases hm : mineMPLSPacket d rem with
    | none =>
      have hL : vmwMineLoop d (Nat.succ n) rem = none := by
        simp [vmwMineLoop, hm]
      rw [hL] at h
      exact Option.noConfusion h
    | some pr =>
      obtain ⟨pkt, rest⟩ := pr
      cases hrec : vmwMineLoop d n rest with
      | none =>
        have hL : vmwMineLoop d (Nat.succ n) rem = none := by
          simp [vmwMineLoop, hm, hrec]
        rw [hL] at h
        exact Option.noConfusion h
      | some l2 =>
        have hL : vmwMineLoop d (Nat.succ n) rem = some (pkt :: l2) := by
          simp [vmwMineLoop, hm, hrec]
        rw [hL] at h
        injection h with h2
        rw [← h2]
        simp [ih rest l2 hrec]

/-- C5 (amended): Parser failure semantics.  `Perform` returns the empty
vector if and only if one of the claimed failure conditions holds — fewer
than 8 bytes for the outer header, a buffer length differing from the
header's `message_length`, fewer than 2 bytes remaining for `num_packets` or
for some sub-packet length, a mined sub-packet length below 9 or larger than
the remaining bytes, or a size-class failure — or the message declares zero
sub-packets (`num_packets = 0`), in which case `Process` succeeds but the
returned vector is nevertheless empty.  Extraneous trailing bytes never
appear among the conditions: they cannot cause failure. -/
theorem mia_c5_parser_empty_amended (d : SizeDefs) (b : List Nat) :
    vmwPerform d b = [] ↔ (claimEmptyCond d b = true ∨ rd16 b 8 = 0) := by
  unfold vmwPerform vmwProcess claimEmptyCond
  by_cases h8 : b.length < 8
  · simp [h8]
  · rw [if_neg h8]
    by_cases hlen2 : b.length ≠ rd32 b 4
    · rw [if_pos hlen2]
      simp [h8, hlen2]
    · rw [if_neg hlen2]
      by_cases h10 : b.length < 10
      · rw [if_pos h10]
        simp [h8, hlen2, h10]
      · rw [if_neg h10]
        cases hloop : vmwMineLoop d (rd16 b 8) (b.drop 10) with
        | none =>
          have hs := (vmwMineLoop_none_iff d (rd16 b 8) (b.drop 10)).mp hloop
          simp [h8, hlen2, h10, hs]
        | some l =>
          have hlength := vmwMineLoop_length d (rd16 b 8) (b.drop 10) l hloop
          have hs : claimSubFail d (rd16 b 8) (b.drop 10) = false := by
            rw [← Bool.not_eq_true]
            intro hc
            have := (vmwMineLoop_none_iff d (rd16 b 8) (b.drop 10)).mpr hc
            rw [hloop] at this
            exact Option.noConfusion this
          simp only [Option.getD_some]
          constructor
          · intro hl
            right
            rw [← hlength, hl]
            rfl
          · intro hr
            rcases hr with hr | hr
            · exfalso
              simp [h8, hlen2, h10, hs] at hr
            · have : l.length = 0 := by rw [hlength, hr]
              exact List.length_eq_zero.mp this

/-- Counterexample to C5 as stated: the ten-byte message `bZero` (valid
header, matching length, `num_packets = 0`) makes `Perform` return the empty
vector although none of the claimed failure conditions holds. -/
theorem mia_c5_parser_empty_counterexample :
    vmwPerform sdA bZero = [] ∧ claimEmptyCond sdA bZero = false := by
  constructor
  · decide
  · decide

/-- Reading a 16-bit network-order field back after encoding recovers the
value modulo 2^16. -/
theorem rd16_be16_append (v : Nat) (r : List Nat) :
    rd16 (be16 v ++ r) 0 = v % 65536 := by
  simp only [rd16, be16, List.cons_append, List.nil_append,
    List.getD_cons_zero, List.getD_cons_succ]
  omega

/-- Reading a 32-bit network-order field back after encoding recovers the
value modulo 2^32. -/
theorem rd32_be32_append (v : Nat) (r : List Nat) :
    rd32 (be32 v ++ r) 0 = v % 4294967296 := by
  simp only [rd32, rd16, be32, List.cons_append, List.nil_append,
    List.getD_cons_zero, List.getD_cons_succ]
  omega

/-- A 32-bit read at offset 4 skips a leading 4-byte field. -/
theorem rd32_after_be32 (a : Nat) (l : List Nat) :
    rd32 (be32 a ++ l) 4 = rd32 l 0 := by
  simp only [rd32, rd16, be32, List.cons_append, List.nil_append,
    List.getD_cons_zero, List.getD_cons_succ]

/-- A 16-bit read at offset 8 skips two leading 4-byte fields. -/
theorem rd16_after_two_be32 (a b2 : Nat) (l : List Nat) :
    rd16 (be32 a ++ (be32 b2 ++ l)) 8 = rd16 l 0 := by
  simp only [rd16, be32, List.cons_append, List.nil_append,
    List.getD_cons_zero, List.getD_cons_succ]

/-- Dropping the 10 header bytes of a built message leaves the packet
bytes. -/
theorem drop_ten_header (a b2 n : Nat) (l : List Nat) :
    (be32 a ++ (be32 b2 ++ (be16 n ++ l))).drop 10 = l := by
  simp [be32, be16]

/-- The length of a built message: 10 header bytes plus the stored packet
bytes. -/
theorem buildMessageBytes_length (msgId : Nat) (pkts : List UplinkPkt) :
    (buildMessageBytes msgId pkts).length
      = 10 + (pkts.map fun p => p.bytes.length).sum := by
  have hcomp : (List.length ∘ fun p : UplinkPkt => p.bytes)
      = fun p : UplinkPkt => p.bytes.length := rfl
  simp only [buildMessageBytes, List.length_append, List.length_flatten,
    List.map_map, hcomp]
  simp [be32, be16]

/-- The built message splits as header fields followed by the flattened
packet bytes. -/
theorem buildMessageBytes_split (msgId : Nat) (pkts : List UplinkPkt) :
    buildMessageBytes msgId pkts
      = be32 msgId ++ (be32 (8 + 2 + (pkts.map fun p => p.bytes.length).sum)
          ++ (be16 pkts.length ++ (pkts.map fun p => p.bytes).flatten)) := by
  simp [buildMessageBytes, List.append_assoc]

/-- Mining the flattened bytes of well-formed stored packets succeeds and
returns, in order, each packet's bytes with the 2-byte length removed. -/
theorem vmwMineLoop_flatten (d : SizeDefs) :
    ∀ pkts : List UplinkPkt, (∀ p ∈ pkts, pktWF d p = true) →
      vmwMineLoop d pkts.length ((pkts.map fun p => p.bytes).flatten)
        = some (pkts.map fun p => p.bytes.drop 2) := by
  intro pkts
  induction pkts with
  | nil => intro _; rfl
  | cons p ps ih =>
    intro hall
    have hp := hall p (List.mem_cons_self _ _)
    rw [pktWF] at hp
    simp only [Bool.and_eq_true, decide_eq_true_eq] at hp
    obtain ⟨⟨⟨h1, h2⟩, h3⟩, h4⟩ := hp
    have hdata_len : (p.bytes.drop 2).length = p.bytes.length - 2 :=
      List.length_drop _ _
    have hbytes : p.bytes = be16 (p.bytes.length - 2) ++ p.bytes.drop 2 := by
      conv_lhs => rw [← List.take_append_drop 2 p.bytes]
      rw [h2]
    have hL9 : 9 ≤ p.bytes.length - 2 := by
      rw [sizeClassOk] at h4
      by_cases hv : itmIsVITM ((p.bytes.drop 2).drop 4) = true
      · rw [if_pos hv] at h4
        simp only [Bool.and_eq_true, decide_eq_true_eq] at h4
        omega
      · rw [if_neg hv] at h4
        simp only [decide_eq_true_eq] at h4
        omega
    have hmine : mineMPLSPacket d
        (be16 (p.bytes.length - 2) ++ (p.bytes.drop 2 ++ (ps.map fun q => q.bytes).flatten))
        = some (p.bytes.drop 2, (ps.map fun q => q.bytes).flatten) := by
      have hlen : (be16 (p.bytes.length - 2)
          ++ (p.bytes.drop 2 ++ (ps.map fun q => q.bytes).flatten)).length
          = 2 + ((p.bytes.length - 2) + ((ps.map fun q => q.bytes).flatten).length) := by
        simp [be16, hdata_len]
        omega
      have hrd : rd16 (be16 (p.bytes.length - 2)
          ++ (p.bytes.drop 2 ++ (ps.map fun q => q.bytes).flatten)) 0
          = p.bytes.length - 2 := by
        rw [rd16_be16_append]
        exact Nat.mod_eq_of_lt h3
      have hdrop2 : (be16 (p.bytes.length - 2)
          ++ (p.bytes.drop 2 ++ (ps.map fun q => q.bytes).flatten)).drop 2
          = p.bytes.drop 2 ++ (ps.map fun q => q.bytes).flatten := by
        simp [be16]
      have hrl : (p.bytes.drop 2 ++ (ps.map fun q => q.bytes).flatten).length
          = (p.bytes.length - 2) + ((ps.map fun q => q.bytes).flatten).length := by
        simp [hdata_len]
      have htake : (p.bytes.drop 2 ++ (ps.map fun q => q.bytes).flatten).take
          (p.bytes.length - 2) = p.bytes.drop 2 := by
        rw [← hdata_len]
        exact List.take_left _ _
      have hdropL : (p.bytes.drop 2 ++ (ps.map fun q => q.bytes).flatten).drop
          (p.bytes.length - 2) = (ps.map fun q => q.bytes).flatten := by
        rw [← hdata_len]
        exact List.drop_left _ _
      unfold mineMPLSPacket
      rw [if_neg (by omega)]
      dsimp only
      rw [hrd, if_neg (by omega), hdrop2, if_neg (by omega), htake, hdropL]
      rw [sizeClassOk] at h4
      by_cases hv : itmIsVITM ((p.bytes.drop 2).drop 4) = true
      · rw [if_pos hv]
        rw [if_pos hv] at h4
        simp only [Bool.and_eq_true, decide_eq_true_eq] at h4
        rw [if_neg (by omega)]
      · rw [if_neg hv]
        rw [if_neg hv] at h4
        simp only [decide_eq_true_eq] at h4
        rw [if_neg (by omega)]
    have hrest := ih (fun q hq => hall q (List.mem_cons_of_mem _ hq))
    show vmwMineLoop d (Nat.succ ps.length) ((p.bytes :: ps.map fun q => q.bytes).flatten)
      = some (p.bytes.drop 2 :: ps.map fun q => q.bytes.drop 2)
    rw [List.flatten_cons]
    conv_lhs => rw [hbytes, List.append_assoc]
    simp only [vmwMineLoop, hmine, hrest]

/-- C9: Build/parse round trip.  For every destination and every list of
stored uplink packets whose bytes are a 2-byte network-order length followed
by exactly that many bytes passing the parser's size-class checks, with the
packet count a 16-bit value and the total an unwrapped 32-bit value, parsing
the bytes produced by `BuildMessageBytes` succeeds and yields exactly, in
order, the packets' bytes with their 2-byte length removed. -/
theorem mia_c9_roundtrip (d : SizeDefs) (msgId : Nat) (pkts : List UplinkPkt)
    (hp : ∀ p ∈ pkts, pktWF d p = true) (hn : pkts.length < 65536)
    (ht : 10 + (pkts.map fun p => p.bytes.length).sum < U32) :
    vmwProcess d (buildMessageBytes msgId pkts)
      = some (pkts.map fun p => p.bytes.drop 2) := by
  have hU : U32 = 4294967296 := rfl
  have hlen := buildMessageBytes_length msgId pkts
  have h4 : rd32 (buildMessageBytes msgId pkts) 4
      = 10 + (pkts.map fun p => p.bytes.length).sum := by
    rw [buildMessageBytes_split, rd32_after_be32, rd32_be32_append]
    omega
  have h8 : rd16 (buildMessageBytes msgId pkts) 8 = pkts.length := by
    rw [buildMessageBytes_split, rd16_after_two_be32, rd16_be16_append]
    exact Nat.mod_eq_of_lt hn
  have hdrop : (buildMessageBytes msgId pkts).drop 10
      = (pkts.map fun p => p.bytes).flatten := by
    rw [buildMessageBytes_split, drop_ten_header]
  unfold vmwProcess
  rw [if_neg (by omega)]
  rw [if_neg (by omega)]
  rw [if_neg (by omega)]
  rw [h8, hdrop]
  exact vmwMineLoop_flatten d pkts hp

/-- Witness for C9 at the concrete one-packet list `[pkt9]`. -/
theorem mia_c9_roundtrip_witness :
    (∀ p ∈ [pkt9], pktWF sdA p = true) ∧
    (([pkt9] : List UplinkPkt).length < 65536) ∧
    (10 + (([pkt9] : List UplinkPkt).map fun p => p.bytes.length).sum < U32) ∧
    vmwProcess sdA (buildMessageBytes cfgA.msgId [pkt9])
      = some ([pkt9].map fun p => p.bytes.drop 2) :=
  ⟨by decide, by decide, by decide,
   mia_c9_roundtrip sdA cfgA.msgId [pkt9] (by decide) (by decide) (by decide)⟩

end MIA
